import Mathlib

/-!
Verification of the igo translator core: a shallow embedding of the
indented-form parser (src/parser/parser.go), the token/FileSet
serialization (src/token/serialize.go), the ast scope/object layer and
the canonical-form printer fragments, together with theorems checking
the natural-language specification against this embedding.

Go's mutable state is passed explicitly: parser methods become functions
from a parser state to a new state, and Go panics (the parser's bailout
and its string panics) become the error branch of an Except.
-/

namespace IGo

namespace token

/-- Token kinds of the language, from the token package vocabulary used by
src/parser/parser.go and the printer (spec section 2: keywords, operators,
punctuation, literal classes, synthetic layout tokens INDENT/DEDENT/SEMICOLON). -/
inductive Token where
  | ILLEGAL
  | EOF
  | COMMENT
  | IDENT
  | INT
  | FLOAT
  | IMAG
  | CHAR
  | STRING
  | ADD
  | SUB
  | MUL
  | QUO
  | REM
  | AND
  | OR
  | XOR
  | ARROW
  | NOT
  | DEFINE
  | ELLIPSIS
  | LPAREN
  | LBRACK
  | LBRACE
  | COMMA
  | PERIOD
  | RPAREN
  | RBRACK
  | RBRACE
  | SEMICOLON
  | COLON
  | INDENT
  | DEDENT
  | BREAK
  | CASE
  | CHAN
  | CONST
  | CONTINUE
  | DEFAULT
  | DEFER
  | DO
  | ELSE
  | FALLTHROUGH
  | FOR
  | FUNC
  | GO
  | GOTO
  | IF
  | IMPORT
  | INTERFACE
  | MAP
  | PACKAGE
  | RANGE
  | RETURN
  | SELECT
  | STRUCT
  | SWITCH
  | TYPE
  | VAR
  deriving DecidableEq, Repr

/-- Modelled from the spec: the token package's string form of each token
(token.go is not under src/); keywords and operators print as themselves,
literal classes and layout tokens print as their class name
(spec section 3, "Token"). -/
def Token.str : Token → String
  | .ILLEGAL => "ILLEGAL"
  | .EOF => "EOF"
  | .COMMENT => "COMMENT"
  | .IDENT => "IDENT"
  | .INT => "INT"
  | .FLOAT => "FLOAT"
  | .IMAG => "IMAG"
  | .CHAR => "CHAR"
  | .STRING => "STRING"
  | .ADD => "+"
  | .SUB => "-"
  | .MUL => "*"
  | .QUO => "/"
  | .REM => "%"
  | .AND => "&"
  | .OR => "|"
  | .XOR => "^"
  | .ARROW => "<-"
  | .NOT => "!"
  | .DEFINE => ":="
  | .ELLIPSIS => "..."
  | .LPAREN => "("
  | .LBRACK => "["
  | .LBRACE => "\x7b"
  | .COMMA => ","
  | .PERIOD => "."
  | .RPAREN => ")"
  | .RBRACK => "]"
  | .RBRACE => "\x7d"
  | .SEMICOLON => ";"
  | .COLON => ":"
  | .INDENT => "INDENT"
  | .DEDENT => "DEDENT"
  | .BREAK => "break"
  | .CASE => "case"
  | .CHAN => "chan"
  | .CONST => "const"
  | .CONTINUE => "continue"
  | .DEFAULT => "default"
  | .DEFER => "defer"
  | .DO => "do"
  | .ELSE => "else"
  | .FALLTHROUGH => "fallthrough"
  | .FOR => "for"
  | .FUNC => "func"
  | .GO => "go"
  | .GOTO => "goto"
  | .IF => "if"
  | .IMPORT => "igo-import"
  | .INTERFACE => "interface"
  | .MAP => "map"
  | .PACKAGE => "package"
  | .RANGE => "range"
  | .RETURN => "return"
  | .SELECT => "select"
  | .STRUCT => "struct"
  | .SWITCH => "switch"
  | .TYPE => "type"
  | .VAR => "var"

/-- Modelled from the spec: the is_literal predicate of the token package
(spec section 3, "Token"): the literal classes are identifiers and the
basic literals. -/
def Token.isLiteral : Token → Bool
  | .IDENT | .INT | .FLOAT | .IMAG | .CHAR | .STRING => true
  | _ => false

/-- A position is an absolute offset; zero is the invalid sentinel NoPos
(spec section 3, "Position"). -/
abbrev Pos := Nat

/-- token.NoPos, the invalid position sentinel. -/
def NoPos : Pos := 0

/-- Pos.IsValid: a position is valid when it is not NoPos. -/
def posIsValid (p : Pos) : Bool := p != NoPos

/-- Modelled from the spec: a resolved source position, the
(filename, line, column) tuple produced by File.Position
(spec sections 3 and 7; token's position.go is not under src/). -/
structure Position where
  filename : String
  line : Nat
  column : Nat
  deriving DecidableEq, Repr

/-- Modelled from the spec: the printed form of a Position,
filename:line:column (spec section 7: user-visible failures carry a
(filename, line, column, message) tuple). -/
def Position.str (p : Position) : String :=
  p.filename ++ ":" ++ toString p.line ++ ":" ++ toString p.column

/-- A lineInfo override record, per the FileSet wire format of spec
section 6: offset, filename, line. -/
structure LineInfo where
  offset : Nat
  filename : String
  line : Nat
  deriving DecidableEq, Repr

/-- A File record of the FileSet registry: name, base offset, size, sorted
line-start offsets, and lineInfo overrides (spec section 3, "FileSet";
field set as used by src/token/serialize.go). -/
structure File where
  name : String
  base : Int
  size : Int
  lines : List Int
  infos : List LineInfo
  deriving DecidableEq, Repr

/-- The FileSet registry: next-base cursor, file records, and the cached
last-used-file pointer (the mutex guarding it is immaterial to the
single-threaded embedding). -/
structure FileSet where
  base : Int
  files : List File
  last : Option File
  deriving DecidableEq, Repr

/-- serializedFile from src/token/serialize.go: fields correspond 1:1 to
the File fields. -/
structure serializedFile where
  Name : String
  Base : Int
  Size : Int
  Lines : List Int
  Infos : List LineInfo
  deriving DecidableEq, Repr

/-- serializedFileSet from src/token/serialize.go. -/
structure serializedFileSet where
  Base : Int
  Files : List serializedFile
  deriving DecidableEq, Repr

/-- FileSet.Write from src/token/serialize.go: the serialized record handed
to the encoder callback, built from the registry under the lock. -/
def FileSet.Write (self : FileSet) : serializedFileSet :=
  { Base := self.base
    Files := self.files.map fun f => ⟨f.name, f.base, f.size, f.lines, f.infos⟩ }

/-- FileSet.Read from src/token/serialize.go: rebuild the registry of the
receiver from a decoded record and invalidate the cached last-used file. -/
def FileSet.Read (self : FileSet) (ss : serializedFileSet) : FileSet :=
  { self with
    base := ss.Base
    files := ss.Files.map fun f => ⟨f.Name, f.Base, f.Size, f.Lines, f.Infos⟩
    last := none }

end token

namespace ast

open token

/-- ObjKind from the ast scope/object layer in src/token/serialize.go:
what an object represents. -/
inductive ObjKind where
  | Bad
  | Pkg
  | Con
  | Typ
  | Var
  | Fun
  | Lbl
  deriving DecidableEq, Repr

/-- A single comment with its slash position and text. -/
structure Comment where
  slash : Pos
  text : String
  deriving DecidableEq, Repr

/-- A group of adjacent comments. -/
structure CommentGroup where
  list : List Comment
  deriving DecidableEq, Repr

/-- A basic literal: position, literal kind token, and value text. -/
structure BasicLit where
  valuePos : Pos
  kind : Token
  value : String
  deriving DecidableEq, Repr

set_option maxHeartbeats 1600000

mutual

/-- An identifier: name position, name, and the resolution slot Obj. -/
inductive Ident where
  | mk (namePos : Pos) (name : String) (obj : ObjSlot)

/-- The Obj pointer of an identifier: nil, the distinguished unresolved
sentinel object (compared by identity in the source), or a resolved
Object. -/
inductive ObjSlot where
  | null
  | unres
  | ptr (o : Object)

/-- An Object describes a named entity: kind, declared name, back-reference
to the declaring node (Decl), and object-specific data (the iota index for
constants). The always-nil type placeholder is omitted. -/
inductive Object where
  | mk (kind : ObjKind) (name : String) (decl : ObjDecl) (data : Option Int)

/-- The declaring node of an Object: Field, ImportSpec, ValueSpec,
TypeSpec, FuncDecl, LabeledStmt, AssignStmt, Scope, or nil, as dispatched
by Object.Pos in src/token/serialize.go. -/
inductive ObjDecl where
  | nil
  | fld (f : Field)
  | importSpec (s : ImportSpec)
  | valueSpec (s : ValueSpec)
  | typeSpec (s : TypeSpec)
  | funcDecl (d : FuncDecl)
  | labeledStmt (s : LabeledStmt)
  | assignStmt (s : AssignStmt)
  | scope (s : Scope)

/-- A Scope: named objects of a block plus the link to the outer scope.
The Go map is embedded as an association list; lookup takes the first
binding and insertion never duplicates a name, matching map semantics. -/
inductive Scope where
  | mk (outer : Option Scope) (objects : List (String × Object))

/-- Expressions (the variants the verified fragments touch). -/
inductive Expr where
  | ident (i : Ident)
  | basicLit (b : BasicLit)
  | funcLit (type : FuncType) (body : BlockStmt)
  | parenExpr (lparen : Pos) (x : Expr) (rparen : Pos)
  | selectorExpr (x : Expr) (sel : Ident)
  | starExpr (star : Pos) (x : Expr)
  | callExpr (c : CallExpr)
  | ellipsisE (pos : Pos) (elt : Option Expr)
  | funcTypeE (t : FuncType)
  | badExpr (from_ : Pos) (to_ : Pos)

/-- A call or conversion: function, parentheses, arguments, and the
position of "..." if present (NoPos otherwise). -/
inductive CallExpr where
  | mk (fn : Expr) (lparen : Pos) (args : List Expr) (ellipsis : Pos) (rparen : Pos)

/-- A function type: func keyword position, parameters, results. -/
inductive FuncType where
  | mk (func : Pos) (params : FieldList) (results : Option FieldList)

/-- A Field: doc comment, names, type, tag, trailing line comment. -/
inductive Field where
  | mk (doc : Option CommentGroup) (names : List Ident) (type : Option Expr)
      (tag : Option BasicLit) (comment : Option CommentGroup)

/-- A FieldList with its opening and closing positions. -/
inductive FieldList where
  | mk (opening : Pos) (list : List Field) (closing : Pos)

/-- A BlockStmt: opening, statements, closing, and the small flag that is
true exactly for the short colon-prefixed form. -/
inductive BlockStmt where
  | mk (opening : Pos) (list : List Stmt) (closing : Pos) (small : Bool)

/-- Statements (the variants the verified fragments touch). -/
inductive Stmt where
  | badStmt (from_ : Pos) (to_ : Pos)
  | emptyStmt (semicolon : Pos)
  | exprStmt (x : Expr)
  | returnStmt (ret : Pos) (results : List Expr)
  | labeled (s : LabeledStmt)
  | assign (s : AssignStmt)
  | block (b : BlockStmt)

/-- A labeled statement. -/
inductive LabeledStmt where
  | mk (label : Ident) (colon : Pos) (stmt : Stmt)

/-- An assignment or short variable declaration. -/
inductive AssignStmt where
  | mk (lhs : List Expr) (tokPos : Pos) (tok : Token) (rhs : List Expr)

/-- A value spec of a const/var declaration: names, optional type, optional
value list (the Go nil slice is Option.none), with doc and line comments. -/
inductive ValueSpec where
  | mk (doc : Option CommentGroup) (names : List Ident) (type : Option Expr)
      (values : Option (List Expr)) (comment : Option CommentGroup)

/-- A type spec. -/
inductive TypeSpec where
  | mk (name : Ident) (type : Option Expr)

/-- An import spec: optional local name and the path literal. -/
inductive ImportSpec where
  | mk (name : Option Ident) (path : BasicLit)

/-- A function or method declaration. -/
inductive FuncDecl where
  | mk (doc : Option CommentGroup) (recv : Option FieldList) (name : Ident)
      (type : FuncType) (body : BlockStmt)

end

def Ident.namePos : Ident → Pos
  | .mk p _ _ => p

def Ident.name : Ident → String
  | .mk _ n _ => n

def Ident.obj : Ident → ObjSlot
  | .mk _ _ o => o

/-- Ident.Pos() is the name position. -/
def Ident.pos (i : Ident) : Pos := i.namePos

/-- Replace the Obj slot of an identifier, the value-level image of the
source's in-place assignment to ident.Obj. -/
def Ident.setObj : Ident → ObjSlot → Ident
  | .mk p n _, o => .mk p n o

def ObjSlot.isUnres : ObjSlot → Bool
  | .unres => true
  | _ => false

def ObjSlot.isNull : ObjSlot → Bool
  | .null => true
  | _ => false

def Object.kind : Object → ObjKind
  | .mk k _ _ _ => k

def Object.name : Object → String
  | .mk _ n _ _ => n

def Object.decl : Object → ObjDecl
  | .mk _ _ d _ => d

def Object.data : Object → Option Int
  | .mk _ _ _ d => d

/-- NewObj from the ast layer: a new object of a given kind and name, with
nil decl and data. -/
def NewObj (kind : ObjKind) (name : String) : Object := .mk kind name .nil none

def Scope.outerS : Scope → Option Scope
  | .mk o _ => o

def Scope.objects : Scope → List (String × Object)
  | .mk _ objs => objs

/-- NewScope: a new scope nested in the outer scope. -/
def NewScope (outer : Option Scope) : Scope := .mk outer []

/-- Scope.Lookup: the object with the given name in this scope (outer
scopes ignored), or none. -/
def Scope.lookup (self : Scope) (name : String) : Option Object :=
  self.objects.lookup name

/-- Scope.Insert from src/token/serialize.go: if the scope already has an
object alt of the same name, leave the scope unchanged and return alt;
otherwise insert obj and return none. -/
def Scope.insert (self : Scope) (obj : Object) : Scope × Option Object :=
  match self.lookup obj.name with
  | some alt => (self, some alt)
  | none => (.mk self.outerS (self.objects ++ [(obj.name, obj)]), none)

def Field.names : Field → List Ident
  | .mk _ ns _ _ _ => ns

def Field.type : Field → Option Expr
  | .mk _ _ t _ _ => t

def FieldList.opening : FieldList → Pos
  | .mk o _ _ => o

def FieldList.list : FieldList → List Field
  | .mk _ l _ => l

def FieldList.closing : FieldList → Pos
  | .mk _ _ c => c

def BlockStmt.opening : BlockStmt → Pos
  | .mk o _ _ _ => o

def BlockStmt.list : BlockStmt → List Stmt
  | .mk _ l _ _ => l

def BlockStmt.closing : BlockStmt → Pos
  | .mk _ _ c _ => c

def BlockStmt.small : BlockStmt → Bool
  | .mk _ _ _ s => s

def FuncType.func : FuncType → Pos
  | .mk f _ _ => f

def FuncType.params : FuncType → FieldList
  | .mk _ p _ => p

def FuncType.results : FuncType → Option FieldList
  | .mk _ _ r => r

def CallExpr.fn : CallExpr → Expr
  | .mk f _ _ _ _ => f

def CallExpr.lparen : CallExpr → Pos
  | .mk _ l _ _ _ => l

def CallExpr.args : CallExpr → List Expr
  | .mk _ _ a _ _ => a

def CallExpr.ellipsis : CallExpr → Pos
  | .mk _ _ _ e _ => e

def CallExpr.rparen : CallExpr → Pos
  | .mk _ _ _ _ r => r

def FuncDecl.doc : FuncDecl → Option CommentGroup
  | .mk d _ _ _ _ => d

def FuncDecl.recv : FuncDecl → Option FieldList
  | .mk _ r _ _ _ => r

def FuncDecl.name : FuncDecl → Ident
  | .mk _ _ n _ _ => n

def FuncDecl.type : FuncDecl → FuncType
  | .mk _ _ _ t _ => t

def FuncDecl.body : FuncDecl → BlockStmt
  | .mk _ _ _ _ b => b

def ValueSpec.names : ValueSpec → List Ident
  | .mk _ ns _ _ _ => ns

def ValueSpec.type : ValueSpec → Option Expr
  | .mk _ _ t _ _ => t

def ValueSpec.values : ValueSpec → Option (List Expr)
  | .mk _ _ _ v _ => v

def TypeSpec.name : TypeSpec → Ident
  | .mk n _ => n

def ImportSpec.name : ImportSpec → Option Ident
  | .mk n _ => n

def ImportSpec.path : ImportSpec → BasicLit
  | .mk _ p => p

def LabeledStmt.label : LabeledStmt → Ident
  | .mk l _ _ => l

def AssignStmt.lhs : AssignStmt → List Expr
  | .mk l _ _ _ => l

/-- Object.Pos from src/token/serialize.go: the position of the identifier
matching the object's name in its declaring node, or NoPos. -/
def Object.posOf (self : Object) : Pos :=
  let name := self.name
  match self.decl with
  | .fld d =>
      match d.names.find? fun n => n.name == name with
      | some n => n.pos
      | none => NoPos
  | .importSpec d =>
      match d.name with
      | some n => if n.name == name then n.pos else d.path.valuePos
      | none => d.path.valuePos
  | .valueSpec d =>
      match d.names.find? fun n => n.name == name with
      | some n => n.pos
      | none => NoPos
  | .typeSpec d => if d.name.name == name then d.name.pos else NoPos
  | .funcDecl d => if d.name.name == name then d.name.pos else NoPos
  | .labeledStmt d => if d.label.name == name then d.label.pos else NoPos
  | .assignStmt d =>
      match d.lhs.find? fun x =>
          match x with
          | .ident i => i.name == name
          | _ => false with
      | some (.ident i) => i.pos
      | _ => NoPos
  | .scope _ => NoPos
  | .nil => NoPos

end ast

namespace parser

open token ast

/-- Modelled from the spec: the parser Mode bitset (section 4.2 "Mode
flags"; the flag constants live in the parser's interface file, not under
src/). Each flag is one boolean. -/
structure Mode where
  parseComments : Bool
  trace : Bool
  declarationErrors : Bool
  allErrors : Bool
  packageClauseOnly : Bool
  importsOnly : Bool
  deriving DecidableEq, Repr

/-- Modelled from the spec: a collected scanner/parser error, a
(position, message) pair (spec section 4.1 "Error handling" and section 7;
the scanner package is not under src/). ErrorList.Add appends. -/
structure PErr where
  pos : Position
  msg : String
  deriving DecidableEq, Repr

/-- A Go panic value raised by the parser: the bailout sentinel of
parser.error, or a string panic (errorExpected and the internal assert). -/
inductive Panic where
  | bailout
  | panicStr (s : String)
  deriving DecidableEq, Repr

/-- One scanned token: position, kind, literal. -/
structure TokEntry where
  pos : Pos
  tok : Token
  lit : String
  deriving DecidableEq, Repr

/-- The parser state: the scanner stream is the list of tokens still to be
delivered, the file's position table is the function from offsets to
resolved positions, and the remaining fields are the parser struct fields
of src/parser/parser.go. The pkgScope field is kept as a plain Scope: the
source only uses it after parseFile has installed the package scope. -/
structure PState where
  position : Pos → Position
  errors : List PErr
  mode : Mode
  comments : List CommentGroup
  leadComment : Option CommentGroup
  lineComment : Option CommentGroup
  pos : Pos
  tok : Token
  lit : String
  ptok : Token
  rest : List TokEntry
  syncPos : Pos
  syncCnt : Nat
  exprLev : Int
  inRhs : Bool
  allowEmptyBlock : Bool
  topScope : Option Scope
  pkgScope : Scope
  unresolved : List Ident
  imports : List ImportSpec
  labelScope : Option Scope
  targetStack : List (List Ident)

/-- File.Line via the position table. -/
def lineAt (st : PState) (p : Pos) : Nat := (st.position p).line

/-- parser.isIndent: the current token is a synthetic newline semicolon. -/
def isIndent (st : PState) : Bool := st.tok == .SEMICOLON && st.lit == "\n"

/-- parser.next0: advance the raw token cursor, remembering the previous
token; an exhausted stream keeps delivering EOF, as the scanner does.
Trace printing has no effect on the parser state. -/
def next0 (st : PState) : PState :=
  match st.rest with
  | [] => { st with ptok := st.tok, tok := .EOF, lit := "" }
  | t :: ts => { st with ptok := st.tok, pos := t.pos, tok := t.tok, lit := t.lit, rest := ts }

/-- parser.consumeComment: consume one comment token, returning it and the
line on which it ends. -/
def consumeComment (st : PState) : Comment × Nat × PState :=
  let endline := lineAt st st.pos
  let comment : Comment := ⟨st.pos, st.lit⟩
  (comment, endline, next0 st)

/-- The comment-group loop of parser.consumeCommentGroup, with fuel; the
real loop stops once the stream is exhausted (the cursor then shows EOF),
so a fuel of the stream length plus two never runs out first. -/
def consumeCommentGroupAux : Nat → Nat → PState → Nat → List Comment →
    List Comment × Nat × PState
  | 0, _, st, endline, acc => (acc, endline, st)
  | fuel + 1, n, st, endline, acc =>
    if st.tok = .COMMENT ∧ lineAt st st.pos ≤ endline + n then
      let (c, endline', st') := consumeComment st
      consumeCommentGroupAux fuel n st' endline' (acc ++ [c])
    else (acc, endline, st)

/-- parser.consumeCommentGroup: consume adjacent comments (at most n empty
lines apart), append the group to the comments list, and return it with
the line at which the group ends. -/
def consumeCommentGroup (n : Nat) (st : PState) : CommentGroup × Nat × PState :=
  let (list, endline, st') :=
    consumeCommentGroupAux (st.rest.length + 2) n st (lineAt st st.pos) []
  let group : CommentGroup := ⟨list⟩
  (group, endline, { st' with comments := st'.comments ++ [group] })

/-- The successor-comments loop of parser.next, with fuel (same bound
argument as for consumeCommentGroupAux). -/
def nextCommentsLoop : Nat → PState → Option CommentGroup → Int →
    Option CommentGroup × Int × PState
  | 0, st, comment, endline => (comment, endline, st)
  | fuel + 1, st, comment, endline =>
    if st.tok = .COMMENT then
      let (c, el, st') := consumeCommentGroup 1 st
      nextCommentsLoop fuel st' (some c) (el : Int)
    else (comment, endline, st)

/-- The same-line comment step of parser.next: when the comment starts on
the previous token's line it may be a line comment (recorded when the
following token moves to a new line); returns the group consumed (if any)
paired with the state. -/
def nextLineCommentStep (st2 : PState) (prev : Pos) : Option CommentGroup × PState :=
  if lineAt st2 st2.pos = lineAt st2 prev then
    let r := consumeCommentGroup 0 st2
    if lineAt r.2.2 r.2.2.pos ≠ r.2.1 then
      (some r.1, { r.2.2 with lineComment := some r.1 })
    else (some r.1, r.2.2)
  else (none, st2)

/-- parser.next: advance to the next non-comment token, collecting comment
groups and remembering the last lead and line comments. -/
def next (st0 : PState) : PState :=
  let st1 := { st0 with leadComment := none, lineComment := none }
  let prev := st1.pos
  let st2 := next0 st1
  if st2.tok = .COMMENT then
    let cs := nextLineCommentStep st2 prev
    let r2 := nextCommentsLoop (cs.2.rest.length + 2) cs.2 cs.1 (-1)
    if r2.2.1 + 1 = (lineAt r2.2.2 r2.2.2.pos : Int) then
      { r2.2.2 with leadComment := r2.1 }
    else r2.2.2
  else st2

/-- parser.error: in error-capped mode (AllErrors unset) discard an error
on the same line as the last recorded one, raise the bailout once more
than 10 errors have accumulated, and otherwise record the error. -/
def error (st : PState) (pos : Pos) (msg : String) : Except Panic PState :=
  let epos := st.position pos
  let sameLine :=
    match st.errors.getLast? with
    | some e => e.pos.line == epos.line
    | none => false
  if st.mode.allErrors = false ∧ sameLine = true then
    .ok st
  else if st.mode.allErrors = false ∧ st.errors.length > 10 then
    .error .bailout
  else
    .ok { st with errors := st.errors ++ [⟨epos, msg⟩] }

/-- parser.errorExpected: build the "expected …" message (specialized when
the error is at the current token) and raise a string panic with it; the
record-and-continue error call is commented out in the source. -/
def errorExpected (st : PState) (pos : Pos) (msg : String) : Except Panic PState :=
  let msg := "expected " ++ msg
  let msg :=
    if pos = st.pos then
      if isIndent st then msg ++ ", found newline"
      else
        let msg := msg ++ ", found '" ++ st.tok.str ++ "'"
        if st.tok.isLiteral then msg ++ " " ++ st.lit else msg
    else msg
  .error (.panicStr ((st.position pos).str ++ " " ++ msg))

/-- parser.expect: report an expectation failure at the current position
when the token does not match, then advance; returns the position of the
expected token. -/
def expect (tok : Token) (st : PState) : Except Panic (Pos × PState) :=
  let pos := st.pos
  if st.tok ≠ tok then
    match errorExpected st pos ("'" ++ tok.str ++ "'") with
    | .error p => .error p
    | .ok st' => .ok (pos, next st')
  else
    .ok (pos, next st)

/-- parser.assert: raise the internal-error string panic when the
invariant does not hold. -/
def assert (cond : Bool) (msg : String) : Except Panic Unit :=
  if cond then .ok () else .error (.panicStr ("go/parser internal error: " ++ msg))

/-- The syncStmt loop with fuel (the real loop stops at EOF; each iteration
consumes from the stream, so the stream length plus two bounds it). -/
def syncStmtAux : Nat → PState → PState
  | 0, st => st
  | fuel + 1, st =>
    match st.tok with
    | .BREAK | .CONST | .CONTINUE | .DEFER | .FALLTHROUGH | .FOR | .GO | .GOTO
    | .IF | .RETURN | .SELECT | .SWITCH | .TYPE | .VAR =>
      if st.pos = st.syncPos ∧ st.syncCnt < 10 then
        { st with syncCnt := st.syncCnt + 1 }
      else if st.syncPos < st.pos then
        { st with syncPos := st.pos, syncCnt := 0 }
      else syncStmtAux fuel (next st)
    | .EOF => st
    | _ => syncStmtAux fuel (next st)

/-- syncStmt: advance to the next statement anchor token. -/
def syncStmt (st : PState) : PState := syncStmtAux (st.rest.length + 2) st

/-- The syncDecl loop with fuel. -/
def syncDeclAux : Nat → PState → PState
  | 0, st => st
  | fuel + 1, st =>
    match st.tok with
    | .CONST | .TYPE | .VAR =>
      if st.pos = st.syncPos ∧ st.syncCnt < 10 then
        { st with syncCnt := st.syncCnt + 1 }
      else if st.syncPos < st.pos then
        { st with syncPos := st.pos, syncCnt := 0 }
      else syncDeclAux fuel (next st)
    | .EOF => st
    | _ => syncDeclAux fuel (next st)

/-- syncDecl: advance to the next declaration anchor token. -/
def syncDecl (st : PState) : PState := syncDeclAux (st.rest.length + 2) st

/-- parser.expectSemi: the semicolon is optional before a closing paren,
brace, or dedent, and satisfied by a just-consumed semicolon, comment, or
dedent. -/
def expectSemi (st : PState) : Except Panic PState :=
  if st.tok ≠ .RPAREN ∧ st.tok ≠ .RBRACE ∧ st.tok ≠ .DEDENT then
    if st.tok = .SEMICOLON then .ok (next st)
    else if st.ptok = .SEMICOLON then .ok st
    else if st.ptok = .COMMENT then .ok st
    else if st.ptok = .DEDENT then .ok st
    else
      match errorExpected st st.pos "';'" with
      | .error p => .error p
      | .ok st1 => .ok (syncStmt st1)
  else .ok st

/-- parser.expectClosing: like expect, with a better message for a missing
comma before a newline. -/
def expectClosing (tok : Token) (context : String) (st : PState) :
    Except Panic (Pos × PState) :=
  if st.tok ≠ tok ∧ isIndent st = true then
    match error st st.pos ("missing ',' before newline in " ++ context) with
    | .error p => .error p
    | .ok st1 => expect tok (next st1)
  else expect tok st

/-- parser.atComma: accept a comma, or "insert" one after reporting a
missing comma before a newline. -/
def atComma (context : String) (st : PState) : Except Panic (Bool × PState) :=
  if st.tok = .COMMA then .ok (true, st)
  else if isIndent st = true then
    match error st st.pos ("missing ',' before newline in " ++ context) with
    | .error p => .error p
    | .ok st1 => .ok (true, st1)
  else .ok (false, st)

/-- parser.openScope. -/
def openScope (st : PState) : PState :=
  { st with topScope := some (NewScope st.topScope) }

/-- parser.closeScope; the source reads topScope.Outer, so the scope stack
is non-empty whenever this runs. -/
def closeScope (st : PState) : PState :=
  { st with topScope :=
      match st.topScope with
      | some sc => sc.outerS
      | none => none }

/-- parser.openLabelScope. -/
def openLabelScope (st : PState) : PState :=
  { st with labelScope := some (NewScope st.labelScope)
            targetStack := st.targetStack ++ [[]] }

/-- parser.closeLabelScope: resolve the recorded forward label references
against the label scope (an unresolved label is an error under
DeclarationErrors), then pop the label scope. The in-place Obj updates of
the label identifiers alias into the AST and are not observable here. -/
def closeLabelScope (st : PState) : Except Panic PState :=
  match st.targetStack.getLast? with
  | none => .error (.panicStr "runtime error: index out of range")
  | some frame =>
    match st.labelScope with
    | none => .error (.panicStr "runtime error: invalid memory address or nil pointer dereference")
    | some scope =>
      let step := fun (acc : Except Panic PState) (ident : Ident) =>
        match acc with
        | .error p => .error p
        | .ok s =>
          if (scope.lookup ident.name).isNone ∧ s.mode.declarationErrors = true then
            error s ident.pos ("label " ++ ident.name ++ " undefined")
          else .ok s
      match frame.foldl step (.ok st) with
      | .error p => .error p
      | .ok s =>
        .ok { s with targetStack := s.targetStack.dropLast
                     labelScope := scope.outerS }

/-- The loop body of parser.declare for one identifier: assert the
identifier unresolved, build the object (NewObj followed by the Decl and
Data assignments), point the identifier at it, and for a non-blank name
attempt insertion, reporting a redeclaration (with the previous
declaration's position when it is valid) under DeclarationErrors. -/
def declare1 (decl : ObjDecl) (data : Option Int) (scope : Scope) (kind : ObjKind)
    (ident : Ident) (st : PState) : Except Panic (Ident × Scope × PState) :=
  match assert ident.obj.isNull "identifier already declared or resolved" with
  | .error p => .error p
  | .ok _ =>
    let obj : Object := .mk kind ident.name decl data
    let ident' := ident.setObj (.ptr obj)
    if ident.name ≠ "_" then
      match scope.insert obj with
      | (scope', none) => .ok (ident', scope', st)
      | (scope', some alt) =>
        if st.mode.declarationErrors then
          let prevDecl :=
            if posIsValid alt.posOf then
              "\n\tprevious declaration at " ++ (st.position alt.posOf).str
            else ""
          match error st ident'.pos (ident.name ++ " redeclared in this block" ++ prevDecl) with
          | .error p => .error p
          | .ok st' => .ok (ident', scope', st')
        else .ok (ident', scope', st)
    else .ok (ident', scope, st)

/-- parser.declare over an identifier list, threading the scope and state
through declare1; returns the identifiers with their Obj slots set, as the
source leaves them after its in-place updates. -/
def declare (decl : ObjDecl) (data : Option Int) (kind : ObjKind) :
    Scope → List Ident → PState → Except Panic (List Ident × Scope × PState)
  | scope, [], st => .ok ([], scope, st)
  | scope, ident :: rest, st =>
    match declare1 decl data scope kind ident st with
    | .error p => .error p
    | .ok (ident', scope', st') =>
      match declare decl data kind scope' rest st' with
      | .error p => .error p
      | .ok (idents', scope'', st'') => .ok (ident' :: idents', scope'', st'')

/-- Lookup along the scope chain, as the tryResolve loop walks from
topScope outward. -/
def Scope.chainLookup : Scope → String → Option Object
  | .mk outer objs, n =>
    match objs.lookup n with
    | some o => some o
    | none =>
      match outer with
      | some sc => Scope.chainLookup sc n
      | none => none

/-- parser.tryResolve: attempt to resolve an identifier expression against
the scope chain; on a miss with collectUnresolved the identifier is marked
with the unresolved sentinel and collected. Returns the expression as the
source leaves it after its in-place Obj update. -/
def tryResolve (x : Expr) (collectUnresolved : Bool) (st : PState) :
    Except Panic (Expr × PState) :=
  match x with
  | .ident ident =>
    match assert ident.obj.isNull
        ("identifier '" ++ ident.name ++ "' already declared or resolved") with
    | .error p => .error p
    | .ok _ =>
      if ident.name = "_" then .ok (x, st)
      else
        match (match st.topScope with
               | some sc => Scope.chainLookup sc ident.name
               | none => none) with
        | some obj => .ok (.ident (ident.setObj (.ptr obj)), st)
        | none =>
          if collectUnresolved then
            let ident' := ident.setObj .unres
            .ok (.ident ident', { st with unresolved := st.unresolved ++ [ident'] })
          else .ok (x, st)
  | _ => .ok (x, st)

/-- parser.resolve. -/
def resolve (x : Expr) (st : PState) : Except Panic (Expr × PState) :=
  tryResolve x true st

/-- parser.parseIdent: consume an IDENT (reporting an expectation failure
otherwise, with "_" as the fallback name) and build the identifier. -/
def parseIdent (st : PState) : Except Panic (Ident × PState) :=
  let pos := st.pos
  if st.tok = .IDENT then
    .ok (⟨pos, st.lit, .null⟩, next st)
  else
    match expect .IDENT st with
    | .error p => .error p
    | .ok (_, st') => .ok (⟨pos, "_", .null⟩, st')

/-- The type of the statement sub-parsers that parseBody and parseBlockStmt
delegate to (parseSmallStmt and parseStmtList of the source); the block
parsers are parameterized by them, mirroring the source's mutual
recursion. -/
abbrev SmallStmtParser := PState → Except Panic (Stmt × PState)

/-- See SmallStmtParser. -/
abbrev StmtListParser := PState → Except Panic (List Stmt × PState)

/-- The type of parseSignature as a sub-parser: parameters and results
parsed into the given scope, returning the scope as the source's in-place
declarations leave it. -/
abbrev SigParser := Scope → PState → Except Panic (FieldList × Option FieldList × Scope × PState)

/-- The type of parseBody as a sub-parser of parseCallOrConversion and
parseFuncDecl. -/
abbrev BodyParser := Scope → PState → Except Panic (BlockStmt × PState)

/-- The type of parseRhsOrType as a sub-parser of the call-argument
loop. -/
abbrev RhsOrTypeParser := PState → Except Panic (Expr × PState)

/-- parser.parseBody: a function body, either the short colon form (empty
or one small statement, Small set, Closing the current position) or the
indented form between INDENT and DEDENT. -/
def parseBody (smallStmt : SmallStmtParser) (stmtList : StmtListParser)
    (scope : Scope) (st : PState) : Except Panic (BlockStmt × PState) :=
  if st.tok = .COLON then
    match expect .COLON st with
    | .error p => .error p
    | .ok (colon, st1) =>
      let st2 := { st1 with topScope := some scope }
      let listRes : Except Panic (List Stmt × PState) :=
        if st2.tok = .SEMICOLON then
          match expectSemi st2 with
          | .error p => .error p
          | .ok s => .ok ([], s)
        else
          match smallStmt st2 with
          | .error p => .error p
          | .ok (s, st3) => .ok ([s], st3)
      match listRes with
      | .error p => .error p
      | .ok (list, st3) =>
        let st4 := closeScope st3
        .ok (⟨colon, list, st4.pos, true⟩, st4)
  else
    match expectSemi st with
    | .error p => .error p
    | .ok st1 =>
      if st1.tok = .INDENT then
        match expect .INDENT st1 with
        | .error p => .error p
        | .ok (indentPos, st2) =>
          let st3 := openLabelScope (openScope st2)
          match stmtList st3 with
          | .error p => .error p
          | .ok (list, st4) =>
            match closeLabelScope st4 with
            | .error p => .error p
            | .ok st5 =>
              let st6 := closeScope st5
              match expect .DEDENT st6 with
              | .error p => .error p
              | .ok (dedent, st7) => .ok (⟨indentPos, list, dedent, false⟩, st7)
      else if st1.allowEmptyBlock then
        .ok (⟨st1.pos, [], st1.pos, false⟩, st1)
      else
        match errorExpected st1 st1.pos "block" with
        | .error p => .error p
        | .ok st2 => .ok (⟨st2.pos, [], st2.pos, false⟩, st2)

/-- parser.parseBlockStmt: a statement block, either the short colon form
(one small statement, Small set, Closing the position before the
terminating semicolon is consumed) or the indented form. -/
def parseBlockStmt (smallStmt : SmallStmtParser) (stmtList : StmtListParser)
    (st : PState) : Except Panic (BlockStmt × PState) :=
  if st.tok = .COLON then
    match expect .COLON st with
    | .error p => .error p
    | .ok (colon, st1) =>
      let st2 := openScope st1
      match smallStmt st2 with
      | .error p => .error p
      | .ok (s, st3) =>
        let st4 := closeScope st3
        let pos := st4.pos
        match expectSemi st4 with
        | .error p => .error p
        | .ok st5 => .ok (⟨colon, [s], pos, true⟩, st5)
  else
    match expectSemi st with
    | .error p => .error p
    | .ok st1 =>
      if st1.tok = .INDENT then
        match expect .INDENT st1 with
        | .error p => .error p
        | .ok (indentPos, st2) =>
          let st3 := openScope st2
          match stmtList st3 with
          | .error p => .error p
          | .ok (list, st4) =>
            let st5 := closeScope st4
            match expect .DEDENT st5 with
            | .error p => .error p
            | .ok (dedent, st6) => .ok (⟨indentPos, list, dedent, false⟩, st6)
      else if st1.allowEmptyBlock then
        .ok (⟨st1.pos, [], st1.pos, false⟩, st1)
      else
        match errorExpected st1 st1.pos "block" with
        | .error p => .error p
        | .ok st2 => .ok (⟨st2.pos, [], st2.pos, false⟩, st2)

/-- The argument loop of parser.parseCallOrConversion, with fuel (each
iteration consumes at least one token of the remaining stream, so the
stream length plus two bounds the iteration count): collect arguments
until a closing paren, EOF, or an already-seen ellipsis, checking commas
through atComma. -/
def parseCallArgsLoop (rhsOrType : RhsOrTypeParser) :
    Nat → List Expr → Pos → PState → Except Panic (List Expr × Pos × PState)
  | 0, list, ellipsis, st => .ok (list, ellipsis, st)
  | fuel + 1, list, ellipsis, st =>
    if st.tok = .RPAREN ∨ st.tok = .EOF ∨ posIsValid ellipsis = true then
      .ok (list, ellipsis, st)
    else
      match rhsOrType st with
      | .error p => .error p
      | .ok (x, st1) =>
        let list := list ++ [x]
        let (ellipsis, st2) :=
          if st1.tok = .ELLIPSIS then (st1.pos, next st1) else (ellipsis, st1)
        match atComma "argument list" st2 with
        | .error p => .error p
        | .ok (comma, st3) =>
          if comma then parseCallArgsLoop rhsOrType fuel list ellipsis (next st3)
          else .ok (list, ellipsis, st3)

/-- parser.parseCallOrConversion: parse the parenthesized argument list,
and if the DO keyword follows the closing paren, parse a function
signature and body into a fresh function scope and append the resulting
function literal as one extra trailing argument. -/
def parseCallOrConversion (rhsOrType : RhsOrTypeParser) (sig : SigParser)
    (body : BodyParser) (fn : Expr) (st : PState) : Except Panic (CallExpr × PState) :=
  match expect .LPAREN st with
  | .error p => .error p
  | .ok (lparen, st1) =>
    let st2 := { st1 with exprLev := st1.exprLev + 1 }
    match parseCallArgsLoop rhsOrType (st2.rest.length + 2) [] NoPos st2 with
    | .error p => .error p
    | .ok (list, ellipsis, st3) =>
      let st4 := { st3 with exprLev := st3.exprLev - 1 }
      match expectClosing .RPAREN "argument list" st4 with
      | .error p => .error p
      | .ok (rparen, st5) =>
        if st5.tok = .DO then
          match expect .DO st5 with
          | .error p => .error p
          | .ok (pos, st6) =>
            let scope := NewScope st6.topScope
            match sig scope st6 with
            | .error p => .error p
            | .ok (params, results, scope2, st7) =>
              let typ : FuncType := ⟨pos, params, results⟩
              let st8 := { st7 with exprLev := st7.exprLev + 1 }
              match body scope2 st8 with
              | .error p => .error p
              | .ok (bodyB, st9) =>
                let st10 := { st9 with exprLev := st9.exprLev - 1 }
                .ok (⟨fn, lparen, list ++ [.funcLit typ bodyB], ellipsis, rparen⟩, st10)
        else
          .ok (⟨fn, lparen, list, ellipsis, rparen⟩, st5)

/-- parser.parseReceiver: build the synthetic "self" receiver field for
the given receiver type, declare "self" as a variable in the function
scope, and resolve the type when it is a plain identifier. The returned
field carries the identifier and type as the source's in-place updates
leave them (field.Names and field.Type alias the mutated nodes). -/
def parseReceiver (typ : Expr) (scope : Scope) (st : PState) :
    Except Panic (Field × Scope × PState) :=
  let ident : Ident := ⟨NoPos, "self", .null⟩
  let field : Field := ⟨none, [ident], some typ, none, none⟩
  match declare (.fld field) none .Var scope [ident] st with
  | .error p => .error p
  | .ok (idents', scope', st') =>
    match typ with
    | .ident _ =>
      match resolve typ st' with
      | .error p => .error p
      | .ok (typ', st'') => .ok (⟨none, idents', some typ', none, none⟩, scope', st'')
    | _ => .ok (⟨none, idents', some typ, none, none⟩, scope', st')

/-- The tail of parser.parseFuncDecl after the name and optional receiver
are known: build the receiver list (Closing is the position current at
that point), run the signature and body sub-parsers through the function
scope, assemble the FuncDecl, and declare a plain non-init function in the
package scope. -/
def parseFuncDeclRest (sig : SigParser) (body : BodyParser)
    (doc : Option CommentGroup) (pos lparen : Pos) (recv : Option Field)
    (scope : Scope) (ident : Ident) (st : PState) : Except Panic (FuncDecl × PState) :=
  let recvList : Option FieldList :=
    match recv with
    | some f => some ⟨lparen, [f], st.pos⟩
    | none => none
  match sig scope st with
  | .error p => .error p
  | .ok (params, results, scope2, st2) =>
    match body scope2 st2 with
    | .error p => .error p
    | .ok (bodyB, st3) =>
      let decl : FuncDecl := ⟨doc, recvList, ident, ⟨pos, params, results⟩, bodyB⟩
      match recv with
      | none =>
        if ident.name ≠ "init" then
          match declare (.funcDecl decl) none .Fun st3.pkgScope [ident] st3 with
          | .error p => .error p
          | .ok (_, pkg', st4) => .ok (decl, { st4 with pkgScope := pkg' })
        else .ok (decl, st3)
      | some _ => .ok (decl, st3)

/-- parser.parseFuncDecl: after FUNC, either *T.name (star receiver),
T.name (plain receiver, detected by the PERIOD after the first
identifier), or a plain function name; receivers go through
parseReceiver, and the rest is parseFuncDeclRest. -/
def parseFuncDecl (sig : SigParser) (body : BodyParser) (st : PState) :
    Except Panic (FuncDecl × PState) :=
  let doc := st.leadComment
  match expect .FUNC st with
  | .error p => .error p
  | .ok (pos, st1) =>
    let scope := NewScope st1.topScope
    let lparen := st1.pos
    if st1.tok = .MUL then
      match expect .MUL st1 with
      | .error p => .error p
      | .ok (star, st2) =>
        match parseIdent st2 with
        | .error p => .error p
        | .ok (typ, st3) =>
          let expr : Expr := .starExpr star (.ident typ)
          match parseReceiver expr scope st3 with
          | .error p => .error p
          | .ok (recv, scope2, st4) =>
            match expect .PERIOD st4 with
            | .error p => .error p
            | .ok (_, st5) =>
              match parseIdent st5 with
              | .error p => .error p
              | .ok (ident, st6) =>
                parseFuncDeclRest sig body doc pos lparen (some recv) scope2 ident st6
    else
      match parseIdent st1 with
      | .error p => .error p
      | .ok (ident0, st2) =>
        if st2.tok = .PERIOD then
          match parseReceiver (.ident ident0) scope st2 with
          | .error p => .error p
          | .ok (recv, scope2, st3) =>
            let st4 := next st3
            match parseIdent st4 with
            | .error p => .error p
            | .ok (ident, st5) =>
              parseFuncDeclRest sig body doc pos lparen (some recv) scope2 ident st5
        else
          parseFuncDeclRest sig body doc pos lparen none scope ident0 st2

/-- A top-level declaration (the variants the verified fragments touch). -/
inductive Decl where
  | badDecl (from_ : Pos) (to_ : Pos)
  | genDecl (tokPos : Pos) (tok : Token) (specs : List (ValueSpec ⊕ TypeSpec ⊕ ImportSpec))
  | funcD (d : FuncDecl)

/-- The File node: package clause, declarations, package scope, imports,
surviving unresolved identifiers, and the collected comment groups. -/
structure File where
  doc : Option CommentGroup
  package : Pos
  name : Ident
  decls : List Decl
  scope : Scope
  imports : List ImportSpec
  unresolved : List Ident
  comments : List CommentGroup

/-- The end-of-file resolution loop of parser.parseFile: each collected
identifier must still carry the unresolved sentinel (internal assertion);
its Obj is re-linked to the package-scope object of its name, and the
identifiers whose lookup failed are kept, in order, by the in-place
compaction. Returns the updated identifiers and the compacted survivor
slice. -/
def resolveGlobals (pkg : Scope) : List Ident → Except Panic (List Ident × List Ident)
  | [] => .ok ([], [])
  | ident :: rest =>
    match assert ident.obj.isUnres "object already resolved" with
    | .error p => .error p
    | .ok _ =>
      let objO := pkg.lookup ident.name
      let ident' := ident.setObj
        (match objO with
         | some o => .ptr o
         | none => .null)
      match resolveGlobals pkg rest with
      | .error p => .error p
      | .ok (upd, surv) =>
        .ok (ident' :: upd, if objO.isNone then ident' :: surv else surv)

/-- The tail of parser.parseFile (after the declaration loop and the scope
assertions): run the end-of-file resolution and build the File node, whose
Unresolved field is the survivor slice. -/
def parseFileTail (doc : Option CommentGroup) (pos : Pos) (name : Ident)
    (decls : List Decl) (st : PState) : Except Panic (File × PState) :=
  match resolveGlobals st.pkgScope st.unresolved with
  | .error p => .error p
  | .ok (_, surv) =>
    .ok (⟨doc, pos, name, decls, st.pkgScope, st.imports, surv, st.comments⟩,
         { st with unresolved := surv })

end parser

namespace printer

open token ast

/-- Modelled from the spec: the operator-precedence constants of the token
package (spec section 4.3, "Expression precedence"; token.go is not under
src/): the highest precedence, used for operands of calls. -/
def HighestPrec : Nat := 7

/-- The commaTerm exprList mode bit (1 << iota with iota = 0). -/
def commaTerm : Nat := 1

/-- Node position, as every node's pos() method used by the printer's
leading self.print(expr.Pos()) (spec section 3: every node exposes pos();
the ast position methods are standard and not under src/). -/
def exprPos : Expr → Pos
  | .ident i => i.namePos
  | .basicLit b => b.valuePos
  | .funcLit t _ => t.func
  | .parenExpr l _ _ => l
  | .selectorExpr x _ => exprPos x
  | .starExpr s _ => s
  | .callExpr (.mk f _ _ _ _) => exprPos f
  | .ellipsisE p _ => p
  | .funcTypeE t => t.func
  | .badExpr f _ => f

/-- One element of the printer's output stream for the embedded CallExpr
case: position hints and tokens as printed, the layout controls it emits,
and markers for the sub-emissions (expr1, exprList, signature, adjBlock)
it delegates to. -/
inductive POut where
  | posP (p : Pos)
  | tokP (t : Token)
  | blank
  | formfeed
  | exprOut (x : Expr) (prec1 : Nat) (depth : Nat)
  | exprListOut (prev : Pos) (list : List Expr) (depth : Nat) (mode : Nat) (next : Pos)
  | signatureOut (params : FieldList) (results : Option FieldList)
  | adjBlockOut (b : BlockStmt)

/-- The function part of the printer's CallExpr case: conversions to
literal function types require parentheses around the type. -/
def expr1CallFunOut (fn : Expr) (depth : Nat) : List POut :=
  match fn with
  | .funcTypeE _ => [.tokP .LPAREN, .exprOut fn HighestPrec depth, .tokP .RPAREN]
  | _ => [.exprOut fn HighestPrec depth]

/-- The *ast.CallExpr case of printer.expr1 (src/README.md printer
sources): print the function (through expr1CallFunOut), the opening
paren, then either the ellipsis form, or — when the last argument is a
function literal — the remaining arguments, the closing paren, a blank,
the DO keyword, the literal's signature and its body; otherwise the plain
argument list. lineFor is the position-to-line map the printer reads from
its file set. -/
def expr1Call (lineFor : Pos → Nat) (x : CallExpr) (depth : Nat) : List POut :=
  let out0 : List POut := [.posP (exprPos (.callExpr x))]
  let depth := if x.args.length > 1 then depth + 1 else depth
  let out := out0 ++ expr1CallFunOut x.fn depth ++ [.posP x.lparen, .tokP .LPAREN]
  if posIsValid x.ellipsis then
    out ++ [.exprListOut x.lparen x.args depth 0 x.ellipsis, .posP x.ellipsis, .tokP .ELLIPSIS]
      ++ (if posIsValid x.rparen ∧ lineFor x.ellipsis < lineFor x.rparen then
            [.tokP .COMMA, .formfeed]
          else [])
      ++ [.posP x.rparen, .tokP .RPAREN]
  else
    if x.args.length > 0 then
      match x.args.getLast? with
      | some (.funcLit t b) =>
        out ++ [.exprListOut x.lparen x.args.dropLast depth commaTerm x.rparen,
                .posP x.rparen, .tokP .RPAREN, .blank, .tokP .DO,
                .signatureOut t.params t.results, .adjBlockOut b]
      | _ =>
        out ++ [.exprListOut x.lparen x.args depth commaTerm x.rparen,
                .posP x.rparen, .tokP .RPAREN]
    else
      out ++ [.posP x.rparen, .tokP .RPAREN]

/-- The number of DO keyword tokens in an output stream. -/
def countDO (l : List POut) : Nat :=
  (l.filter fun o =>
    match o with
    | .tokP .DO => true
    | _ => false).length

/-- The inner loop of keepTypeColumn's populate closure:
for ; i < j; i++ set m[i] to true. -/
def populateLoop (m : List Bool) (i j : Nat) : List Bool :=
  if i < j then populateLoop (m.set i true) (i + 1) j else m
termination_by j - i
decreasing_by omega

/-- The populate closure of keepTypeColumn: flush a run into the mask when
its keepType flag is set. -/
def populate (m : List Bool) (i j : Nat) (keepType : Bool) : List Bool :=
  if keepType then populateLoop m i j else m

/-- The loop body of keepTypeColumn, on the (i0, keepType, mask)
accumulator and the current (index, spec) pair: a spec with values opens a
run when none is open; a spec without values closes an open run through
populate; a spec with a type sets keepType. -/
def ktcStep (acc : Int × Bool × List Bool) (p : Nat × ValueSpec) :
    Int × Bool × List Bool :=
  let i0 := acc.1
  let keepType := acc.2.1
  let m := acc.2.2
  let i := p.1
  let t := p.2
  let next :=
    if t.values.isSome then
      if i0 < 0 then ((i : Int), false, m) else (i0, keepType, m)
    else
      if 0 ≤ i0 then (-1, keepType, populate m i0.toNat i keepType)
      else (i0, keepType, m)
  let i0 := next.1
  let keepType := next.2.1
  let m := next.2.2
  let keepType := if t.type.isSome then true else keepType
  (i0, keepType, m)

/-- keepTypeColumn from the printer (src/README.md): scan the value specs
of a grouped declaration, tracking the start i0 of the current run of
specs with values (i0 = -1 outside a run) and whether any spec of the run
carries a type, and flush each finished run through populate. The printer
only calls this with value specs (its type assertion), so the embedding
takes them directly. -/
def keepTypeColumn (specs : List ValueSpec) : List Bool :=
  let res := specs.enum.foldl ktcStep (-1, false, List.replicate specs.length false)
  if 0 ≤ res.1 then populate res.2.2 res.1.toNat specs.length res.2.1 else res.2.2

/-- Index k of the spec list has initialization values. -/
def hasVals (specs : List ValueSpec) (k : Nat) : Bool :=
  match specs.get? k with
  | some t => t.values.isSome
  | none => false

/-- Index k of the spec list carries an explicit type. -/
def hasTy (specs : List ValueSpec) (k : Nat) : Bool :=
  match specs.get? k with
  | some t => t.type.isSome
  | none => false

/-- The specification-side reading of keepTypeColumn for index i: the spec
has values and its maximal contiguous run of value-carrying specs contains
a spec with an explicit type (phrased as: some index j reachable from i
through value-carrying specs has a type). -/
def ansP (specs : List ValueSpec) (i : Nat) : Prop :=
  hasVals specs i = true ∧
  ∃ j, j < specs.length ∧
    (∀ k, min i j ≤ k → k ≤ max i j → hasVals specs k = true) ∧
    hasTy specs j = true

end printer

/-! ## Supporting lemmas -/

namespace parser

open token ast

/-- errorExpected always ends in a string panic: its final expression is
the panic, and the record-and-continue call is commented out. -/
theorem errorExpected_isError (st : PState) (pos : Pos) (msg : String) :
    ∃ s, errorExpected st pos msg = .error (.panicStr s) :=
  ⟨_, rfl⟩

/-- expect succeeds exactly on a matching token, returning its position
and advancing. -/
theorem expect_ok_of_tok {st : PState} {t : Token} (h : st.tok = t) :
    expect t st = .ok (st.pos, next st) := by
  simp [expect, h]

/-- Inversion for expect: a successful expect means the token matched. -/
theorem expect_ok_inv {st st' : PState} {t : Token} {p : Pos}
    (h : expect t st = .ok (p, st')) : st.tok = t ∧ p = st.pos ∧ st' = next st := by
  by_cases htok : st.tok = t
  · rw [expect_ok_of_tok htok] at h
    simp only [Except.ok.injEq, Prod.mk.injEq] at h
    exact ⟨htok, h.1.symm, h.2.symm⟩
  · exfalso
    obtain ⟨s, hs⟩ := errorExpected_isError st st.pos ("'" ++ t.str ++ "'")
    simp [expect, htok, hs] at h

/-- Inversion for parseIdent: success means the current token was an IDENT
and the identifier is built from the cursor. -/
theorem parseIdent_ok_inv {st st' : PState} {i : Ident}
    (h : parseIdent st = .ok (i, st')) :
    st.tok = .IDENT ∧ i = ⟨st.pos, st.lit, .null⟩ ∧ st' = next st := by
  by_cases htok : st.tok = .IDENT
  · simp [parseIdent, htok] at h
    exact ⟨htok, h.1.symm, h.2.symm⟩
  · exfalso
    obtain ⟨s, hs⟩ := errorExpected_isError st st.pos ("'" ++ Token.str .IDENT ++ "'")
    simp [parseIdent, htok, expect, hs] at h

/-- expectSemi on a semicolon consumes it. -/
theorem expectSemi_semicolon {st : PState} (h : st.tok = .SEMICOLON) :
    expectSemi st = .ok (next st) := by
  simp [expectSemi, h]

/-- The default parse mode: no flag set. -/
def modeDefault : Mode := ⟨false, false, false, false, false, false⟩

/-- A quiescent parser state over an empty stream, with one source line
per position unit; concrete scenarios are built from it. -/
def baseState : PState := {
  position := fun p => ⟨"t.igo", p, 1⟩
  errors := []
  mode := modeDefault
  comments := [], leadComment := none, lineComment := none
  pos := 0, tok := .ILLEGAL, lit := "", ptok := .ILLEGAL
  rest := []
  syncPos := 0, syncCnt := 0, exprLev := 0, inRhs := false
  allowEmptyBlock := false
  topScope := none, pkgScope := NewScope none
  unresolved := [], imports := [], labelScope := none, targetStack := [] }

/-- n successive error reports at distinct positions (hence distinct
lines under baseState's position table), starting from no errors. -/
def errSeq : Nat → Except Panic PState
  | 0 => .ok baseState
  | n + 1 =>
    match errSeq n with
    | .error p => .error p
    | .ok s => error s (n + 1) "e"

/-- A state that has already accumulated 11 errors, on lines 1 through 11. -/
def st11 : PState :=
  { baseState with errors :=
      [⟨⟨"t.igo", 1, 1⟩, "e"⟩, ⟨⟨"t.igo", 2, 1⟩, "e"⟩, ⟨⟨"t.igo", 3, 1⟩, "e"⟩,
       ⟨⟨"t.igo", 4, 1⟩, "e"⟩, ⟨⟨"t.igo", 5, 1⟩, "e"⟩, ⟨⟨"t.igo", 6, 1⟩, "e"⟩,
       ⟨⟨"t.igo", 7, 1⟩, "e"⟩, ⟨⟨"t.igo", 8, 1⟩, "e"⟩, ⟨⟨"t.igo", 9, 1⟩, "e"⟩,
       ⟨⟨"t.igo", 10, 1⟩, "e"⟩, ⟨⟨"t.igo", 11, 1⟩, "e"⟩] }

end parser

/-! ## Claims -/

open token ast parser printer

/-- C8: for every FileSet, serializing with Write and deserializing the
result with Read (into any receiver) yields a FileSet equal to the
original — same base and, per file, same name, base, size, line-start
offsets and lineInfo overrides — with the cached last-used-file pointer
set to nil. -/
theorem C8_fileset_roundtrip (fs s0 : FileSet) :
    s0.Read fs.Write = { fs with last := none } := by
  have hmap : ∀ l : List token.File,
      l.map (fun f => token.File.mk f.name f.base f.size f.lines f.infos) = l := by
    intro l
    induction l with
    | nil => rfl
    | cons a t ih => cases a; simp [ih]
  cases fs with
  | mk base files last =>
    simp only [FileSet.Read, FileSet.Write, List.map_map]
    exact congrArg (fun l => FileSet.mk base l none) (hmap files)

/-- C2: contrary to the record-and-continue policy the claim states,
parser.errorExpected always aborts with a string panic (the
record-and-continue p.error call is commented out in the source), so any
expected-vs-actual token mismatch reported through expect aborts the
parse instead of appending to the ErrorList and continuing. -/
theorem C2_errorExpected_always_panics (st : PState) (pos : Pos) (msg : String) :
    (∃ s, errorExpected st pos msg = .error (.panicStr s)) ∧
    (∀ t, st.tok ≠ t → ∃ s, expect t st = .error (.panicStr s)) := by
  refine ⟨errorExpected_isError st pos msg, fun t ht => ?_⟩
  obtain ⟨s, hs⟩ := errorExpected_isError st st.pos ("'" ++ t.str ++ "'")
  exact ⟨s, by simp [expect, ht, hs]⟩

/-- Witness for C2: a concrete mismatch (expecting PACKAGE while the
cursor shows ILLEGAL) makes expect abort with a string panic. -/
theorem C2_witness : ∃ s, expect .PACKAGE baseState = .error (.panicStr s) :=
  (C2_errorExpected_always_panics baseState 0 "declaration").2 .PACKAGE (by decide)

/-- C1 (amended): in the default error mode, parser.error raises the
bailout exactly when more than 10 errors have already accumulated and the
new error is not on the same line as the last recorded one; consequently
at most 11 errors are ever recorded, and the bailout fires on the 12th
distinct-line report, not the 11th. -/
theorem C1_error_cap (st : PState) (pos : Pos) (msg : String)
    (hall : st.mode.allErrors = false) :
    (error st pos msg = .error .bailout ↔
      (10 < st.errors.length ∧
        ∀ e, st.errors.getLast? = some e → e.pos.line ≠ (st.position pos).line)) ∧
    (st.errors.length ≤ 11 →
      ∀ st', error st pos msg = .ok st' → st'.errors.length ≤ 11) := by
  unfold error
  simp only [hall]
  cases hE : st.errors.getLast? with
  | none =>
    have hnil : st.errors = [] := by
      cases hl : st.errors with
      | nil => rfl
      | cons a l => rw [hl] at hE; simp [List.getLast?_concat] at hE
    constructor
    · simp [hnil]
    · intro hlen st' hok
      simp [hnil] at hok ⊢
      rw [← hok]
      simp [hnil]
  | some e =>
    by_cases hline : e.pos.line = (st.position pos).line
    · constructor
      · simp [hE, hline]
      · intro hlen st' hok
        simp [hE, hline] at hok
        rw [← hok]
        exact hlen
    · by_cases hcap : 10 < st.errors.length
      · have hbne : (e.pos.line == (st.position pos).line) = false := by
          simp [hline]
        constructor
        · simp only [hE]
          constructor
          · intro _
            refine ⟨hcap, fun e' he' => ?_⟩
            cases he'
            exact fun hc => hline hc
          · intro _
            simp [hbne, hcap]
        · intro hlen st' hok
          simp [hE, hbne, hcap] at hok
      · constructor
        · simp only [hE]
          have hbne : (e.pos.line == (st.position pos).line) = false := by
            simp [hline]
          simp [hbne, hcap]
        · intro hlen st' hok
          have hbne : (e.pos.line == (st.position pos).line) = false := by
            simp [hline]
          simp [hE, hbne, hcap] at hok
          rw [← hok]
          simp
          omega

/-- Witness for C1: with 11 errors already recorded on lines 1..11, a
12th report at line 12 satisfies the bailout characterization. -/
theorem C1_error_cap_witness :
    10 < st11.errors.length ∧
    ∀ e, st11.errors.getLast? = some e → e.pos.line ≠ (st11.position 12).line :=
  (C1_error_cap st11 12 "e" rfl).1.mp rfl

/-- Counterexample for C1 as stated: after 11 error reports on 11 distinct
lines, all 11 are recorded and no bailout has occurred (so the parser does
not record at most 10 errors nor abort at the 11th); the 12th report is
the one that raises the bailout. -/
theorem C1_counterexample :
    (errSeq 11).map (fun s => s.errors.length) = .ok 11 ∧
    errSeq 12 = .error .bailout :=
  ⟨rfl, rfl⟩

@[simp]
theorem Object_name_mk (k : ObjKind) (n : String) (d : ObjDecl) (dt : Option Int) :
    (Object.mk k n d dt).name = n := rfl

@[simp]
theorem setObj_pos (i : Ident) (o : ObjSlot) : (i.setObj o).pos = i.pos := by
  cases i; rfl

@[simp]
theorem setObj_name (i : Ident) (o : ObjSlot) : (i.setObj o).name = i.name := by
  cases i; rfl

/-- C7: for each identifier handled by declare — one declare1 step per
identifier, in order — a fresh non-blank identifier gets a new Object of
the given kind pointed at by its Obj slot and inserted into the scope;
on a name collision the scope is left unchanged and, with
DeclarationErrors set (here from a clean error list, with the previous
declaration's position valid), exactly one error
"x redeclared in this block" followed by the previous declaration's
position is recorded; blank identifiers are never inserted. -/
theorem C7_declare (decl : ObjDecl) (data : Option Int) (sc : Scope) (kind : ObjKind)
    (id : Ident) (st : PState) (hfresh : id.obj = .null) :
    (id.name ≠ "_" → sc.lookup id.name = none →
      declare1 decl data sc kind id st =
        .ok (id.setObj (.ptr (.mk kind id.name decl data)),
             .mk sc.outerS (sc.objects ++ [(id.name, .mk kind id.name decl data)]), st)) ∧
    (∀ alt, id.name ≠ "_" → sc.lookup id.name = some alt →
      st.mode.declarationErrors = true → st.errors = [] → posIsValid alt.posOf = true →
      declare1 decl data sc kind id st =
        .ok (id.setObj (.ptr (.mk kind id.name decl data)), sc,
             { st with errors := [⟨st.position id.pos,
                 id.name ++ " redeclared in this block" ++
                   ("\n\tprevious declaration at " ++ (st.position alt.posOf).str)⟩] })) ∧
    (∀ alt, id.name ≠ "_" → sc.lookup id.name = some alt →
      st.mode.declarationErrors = false →
      declare1 decl data sc kind id st =
        .ok (id.setObj (.ptr (.mk kind id.name decl data)), sc, st)) ∧
    (id.name = "_" →
      declare1 decl data sc kind id st =
        .ok (id.setObj (.ptr (.mk kind id.name decl data)), sc, st)) ∧
    (∀ res, declare1 decl data sc kind id st = .ok res →
      declare decl data kind sc [id] st = .ok ([res.1], res.2.1, res.2.2)) := by
  have hisnull : id.obj.isNull = true := by rw [hfresh]; rfl
  refine ⟨?_, ?_, ?_, ?_, ?_⟩
  · intro hnb hlook
    simp [declare1, assert, hisnull, hnb, Scope.insert, hlook]
  · intro alt hnb hlook hde herr hpv
    simp [declare1, assert, hisnull, hnb, Scope.insert, hlook, hde, hpv, error, herr]
  · intro alt hnb hlook hde
    simp [declare1, assert, hisnull, hnb, Scope.insert, hlook, hde]
  · intro hb
    simp [declare1, assert, hisnull, hb]
  · intro res hres
    simp [declare, hres]

/-- The previously declared object of the C7 witness scenario, recording
x at position 5. -/
def vsPrev : ValueSpec := .mk none [⟨5, "x", .null⟩] none none none

/-- The C7 witness scope, already holding x. -/
def scRedecl : Scope := .mk none [("x", .mk .Var "x" (.valueSpec vsPrev) none)]

/-- A state with DeclarationErrors set and no errors yet. -/
def stDeclErr : PState := { baseState with mode := ⟨false, false, true, false, false, false⟩ }

/-- The redeclaring value spec of the C7 witness scenario (x again, at
position 9). -/
def vsNew : ValueSpec := .mk none [⟨9, "x", .null⟩] none none none

/-- Witness for C7: redeclaring x yields exactly one
"x redeclared in this block\n\tprevious declaration at t.igo:5:1"
error and leaves the scope unchanged. -/
theorem C7_declare_witness :
    declare (.valueSpec vsNew) none .Var scRedecl [⟨9, "x", .null⟩] stDeclErr =
      .ok ([Ident.mk 9 "x" (.ptr (.mk .Var "x" (.valueSpec vsNew) none))], scRedecl,
           { stDeclErr with errors := [⟨⟨"t.igo", 9, 1⟩,
               "x" ++ " redeclared in this block" ++
                 ("\n\tprevious declaration at " ++ "t.igo:5:1")⟩] }) := by
  have h := C7_declare (.valueSpec vsNew) none scRedecl .Var ⟨9, "x", .null⟩ stDeclErr rfl
  have hB := h.2.1 (.mk .Var "x" (.valueSpec vsPrev) none) (by decide) rfl rfl rfl rfl
  exact h.2.2.2.2 _ hB

/-- The re-linking of one collected identifier at end of file: its Obj
becomes the package-scope object of its name, or nil. -/
def relink (pkg : Scope) (id : Ident) : Ident :=
  id.setObj
    (match pkg.lookup id.name with
     | some o => .ptr o
     | none => .null)

/-- The resolution loop equals the map/filter formulation: every collected
identifier is re-linked, and the compacted survivors are exactly the
re-linked identifiers whose names the package scope does not contain. -/
theorem resolveGlobals_eq (pkg : Scope) (ids : List Ident)
    (h : ∀ id ∈ ids, id.obj = .unres) :
    resolveGlobals pkg ids =
      .ok (ids.map (relink pkg),
           (ids.filter fun id => (pkg.lookup id.name).isNone).map (relink pkg)) := by
  induction ids with
  | nil => rfl
  | cons id rest ih =>
    have hid : id.obj = .unres := h id (by simp)
    have hunres : id.obj.isUnres = true := by rw [hid]; rfl
    have ih' := ih fun i hi => h i (by simp [hi])
    cases hlook : pkg.lookup id.name with
    | none =>
      simp [resolveGlobals, assert, hunres, ih', relink, hlook]
    | some o =>
      simp [resolveGlobals, assert, hunres, ih', relink, hlook]

/-- C6: at end of file the parser re-links each collected unresolved
identifier to the package-scope object of its name when one exists, and
the File's Unresolved list contains exactly the survivors: exactly the
collected identifiers whose names the package scope does not contain
(their names surviving unchanged, their Obj slots nil). -/
theorem C6_unresolved_relink (ids : List Ident)
    (h : ∀ id ∈ ids, id.obj = .unres) :
    (∀ pkg, resolveGlobals pkg ids =
      .ok (ids.map (relink pkg),
           (ids.filter fun id => (pkg.lookup id.name).isNone).map (relink pkg))) ∧
    (∀ doc pos nm decls (st : PState), st.unresolved = ids →
      parseFileTail doc pos nm decls st =
        .ok (⟨doc, pos, nm, decls, st.pkgScope, st.imports,
              (ids.filter fun id => (st.pkgScope.lookup id.name).isNone).map
                (relink st.pkgScope),
              st.comments⟩,
             { st with unresolved :=
                 ((ids.filter (fun id => (st.pkgScope.lookup id.name).isNone)).map
                   (relink st.pkgScope)) })) ∧
    (∀ pkg id, id ∈ ids →
      (relink pkg id).obj =
        (match pkg.lookup id.name with
         | some o => .ptr o
         | none => .null)) ∧
    (∀ pkg,
      ((ids.filter fun id => (pkg.lookup id.name).isNone).map (relink pkg)).map Ident.name
        = (ids.map Ident.name).filter fun n => (pkg.lookup n).isNone) := by
  refine ⟨fun pkg => resolveGlobals_eq pkg ids h, ?_, ?_, ?_⟩
  · intro doc pos nm decls st hst
    subst hst
    simp [parseFileTail, resolveGlobals_eq st.pkgScope st.unresolved h]
  · intro pkg id _
    cases id with
    | mk p n o => simp [relink, Ident.setObj, Ident.obj]
  · intro pkg
    induction ids with
    | nil => rfl
    | cons id rest ih =>
      have ih' := ih fun i hi => h i (by simp [hi])
      cases hlook : pkg.lookup id.name with
      | none => simp [hlook, ih', relink]
      | some o => simp [hlook, ih', relink]

/-- The C6 witness package scope, knowing only the name a. -/
def pkgScopeW : Scope := .mk none [("a", .mk .Fun "a" .nil none)]

/-- Witness for C6: of the collected identifiers a and b, a is re-linked
to the package-scope object and only b survives into Unresolved. -/
theorem C6_unresolved_relink_witness :
    resolveGlobals pkgScopeW [⟨1, "a", .unres⟩, ⟨2, "b", .unres⟩] =
      .ok ([⟨1, "a", .ptr (.mk .Fun "a" .nil none)⟩, ⟨2, "b", .null⟩],
           [⟨2, "b", .null⟩]) := by
  have h := (C6_unresolved_relink [⟨1, "a", .unres⟩, ⟨2, "b", .unres⟩]
    (by intro id hid; simp only [List.mem_cons, List.not_mem_nil, or_false] at hid
        rcases hid with rfl | rfl <;> rfl)).1 pkgScopeW
  simpa [relink, pkgScopeW, Scope.lookup, Ident.setObj] using h

/-- C3: a block in the short colon-prefixed form — a COLON followed by one
small statement whose end leaves the cursor on the terminating semicolon —
yields a BlockStmt with Small true, Opening the colon's position and
Closing the cursor position at that point, i.e. the semicolon's position;
this holds both for parseBlockStmt and for the colon branch of parseBody
(which leaves the semicolon unconsumed). -/
theorem C3_short_block (smallStmt : SmallStmtParser) (stmtList : StmtListParser)
    (st st3 : PState) (s : Stmt) (scope : Scope) (stB stB3 : PState) (sB : Stmt)
    (hc : st.tok = .COLON)
    (hs : smallStmt (openScope (next st)) = .ok (s, st3))
    (hsemi : st3.tok = .SEMICOLON)
    (hcB : stB.tok = .COLON)
    (hnB : ({ next stB with topScope := some scope } : PState).tok ≠ .SEMICOLON)
    (hsB : smallStmt { next stB with topScope := some scope } = .ok (sB, stB3))
    (hsemiB : stB3.tok = .SEMICOLON) :
    parseBlockStmt smallStmt stmtList st =
      .ok (⟨st.pos, [s], st3.pos, true⟩, next (closeScope st3)) ∧
    parseBody smallStmt stmtList scope stB =
      .ok (⟨stB.pos, [sB], stB3.pos, true⟩, closeScope stB3) := by
  constructor
  · have hsemi' : (closeScope st3).tok = .SEMICOLON := hsemi
    simp only [parseBlockStmt, hc, if_true, expect_ok_of_tok hc, hs,
      expectSemi_semicolon hsemi']
    exact rfl
  · have h2 : ({ next stB with topScope := some scope } : PState).tok = .SEMICOLON ↔ False := by
      simp [hnB]
    simp only [parseBody, hcB, if_true, expect_ok_of_tok hcB, h2, if_false, hsB]
    exact rfl

/-- A concrete small-statement sub-parser for the witnesses: a RETURN
token becomes an empty return statement (consuming it, as
parseReturnStmt does), and a semicolon an empty statement left in place
(the parseSmallStmt SEMICOLON case). -/
def wSmall : SmallStmtParser := fun st =>
  if st.tok = .RETURN then .ok (.returnStmt st.pos [], next st)
  else .ok (.emptyStmt st.pos, st)

/-- A trivial statement-list sub-parser for the witnesses. -/
def wStmtList : StmtListParser := fun st => .ok ([], st)

/-- Witness stream for C3, parseBlockStmt side: a colon at 1 followed by
a synthetic semicolon at 2 (an empty small statement). -/
def wStColon : PState :=
  { baseState with pos := 1, tok := .COLON
                   rest := [⟨2, .SEMICOLON, "\n"⟩, ⟨3, .EOF, ""⟩] }

/-- Witness stream for C3, parseBody side: a colon at 1, a return at 3,
its terminating semicolon at 9. -/
def wStColonRet : PState :=
  { baseState with pos := 1, tok := .COLON
                   rest := [⟨3, .RETURN, ""⟩, ⟨9, .SEMICOLON, "\n"⟩, ⟨10, .EOF, ""⟩] }

/-- Witness for C3: on the concrete streams, both block parsers return a
small BlockStmt whose Opening is the colon position 1 and whose Closing
is the terminating semicolon's position (2, resp. 9). -/
theorem C3_short_block_witness :
    parseBlockStmt wSmall wStmtList wStColon =
      .ok (⟨1, [.emptyStmt 2], 2, true⟩, next (closeScope (openScope (next wStColon)))) ∧
    parseBody wSmall wStmtList (NewScope none) wStColonRet =
      .ok (⟨1, [.returnStmt 3 []], 9, true⟩,
           closeScope (next { next wStColonRet with topScope := some (NewScope none) })) := by
  have h := C3_short_block wSmall wStmtList wStColon (openScope (next wStColon))
    (.emptyStmt 2) (NewScope none) wStColonRet
    (next { next wStColonRet with topScope := some (NewScope none) }) (.returnStmt 3 [])
    rfl rfl rfl rfl (by decide) rfl rfl
  exact h

/-- C4 (amended): a call followed by DO, a signature and a body receives
exactly one extra trailing argument, the function literal built from
them; conversely, for a call without a valid ellipsis position whose last
argument is a function literal, the printer emits the function, the
remaining arguments in parentheses, then a blank, the DO keyword, the
literal's signature and its body (a call with a valid ellipsis is printed
through the ellipsis form instead, with no DO). -/
theorem C4_do_sugar (rhsOrType : RhsOrTypeParser) (sig : SigParser) (body : BodyParser)
    (fn : Expr) (st st2 st3 st4 st5 st6 st7 st8 st9 : PState)
    (args : List Expr) (ell : Pos) (params : FieldList) (results : Option FieldList)
    (scope2 : Scope) (bodyB : BlockStmt)
    (lineFor : Pos → Nat) (x : CallExpr) (depth : Nat) (t : FuncType) (b : BlockStmt)
    (h1 : st.tok = .LPAREN)
    (hst2 : st2 = { next st with exprLev := (next st).exprLev + 1 })
    (hloop : parseCallArgsLoop rhsOrType (st2.rest.length + 2) [] NoPos st2 =
      .ok (args, ell, st3))
    (hst4 : st4 = { st3 with exprLev := st3.exprLev - 1 })
    (h4 : st3.tok = .RPAREN)
    (hst5 : st5 = next st4)
    (h5 : st5.tok = .DO)
    (hst6 : st6 = next st5)
    (hsig : sig (NewScope st6.topScope) st6 = .ok (params, results, scope2, st7))
    (hst8 : st8 = { st7 with exprLev := st7.exprLev + 1 })
    (hbody : body scope2 st8 = .ok (bodyB, st9))
    (hne : posIsValid x.ellipsis = false)
    (hlast : x.args.getLast? = some (.funcLit t b)) :
    parseCallOrConversion rhsOrType sig body fn st =
      .ok (⟨fn, st.pos, args ++ [.funcLit ⟨st5.pos, params, results⟩ bodyB], ell, st4.pos⟩,
           { st9 with exprLev := st9.exprLev - 1 }) ∧
    (∃ funPart,
      expr1Call lineFor x depth =
        [.posP (exprPos (.callExpr x))] ++ funPart ++
        [.posP x.lparen, .tokP .LPAREN,
         .exprListOut x.lparen x.args.dropLast
           (if x.args.length > 1 then depth + 1 else depth) commaTerm x.rparen,
         .posP x.rparen, .tokP .RPAREN, .blank, .tokP .DO,
         .signatureOut t.params t.results, .adjBlockOut b]) := by
  constructor
  · subst hst2 hst4 hst5 hst6 hst8
    have h4' : ({ st3 with exprLev := st3.exprLev - 1 } : PState).tok = .RPAREN := h4
    have hclosing : expectClosing .RPAREN "argument list" { st3 with exprLev := st3.exprLev - 1 } =
        .ok (({ st3 with exprLev := st3.exprLev - 1 } : PState).pos,
             next { st3 with exprLev := st3.exprLev - 1 }) := by
      simp [expectClosing, expect, h4', h4]
    simp only [parseCallOrConversion, expect_ok_of_tok h1, hloop, hclosing, h5, if_true,
      expect_ok_of_tok h5, hsig, hbody]
  · refine ⟨expr1CallFunOut x.fn (if x.args.length > 1 then depth + 1 else depth), ?_⟩
    have hpos : x.args.length > 0 := by
      cases hargs : x.args with
      | nil => rw [hargs] at hlast; simp at hlast
      | cons a l => simp
    simp only [expr1Call, hne, Bool.false_eq_true, if_false, hpos, if_true, hlast]
    simp [List.append_assoc]

/-- The C4 counterexample call: a valid ellipsis position (6) and a single
argument that is a function literal. -/
def cEll : CallExpr :=
  .mk (.ident ⟨1, "f", .null⟩) 2 [.funcLit ⟨3, ⟨0, [], 0⟩, none⟩ ⟨4, [], 5, true⟩] 6 7

/-- Counterexample for C4 as stated: this call's last argument is a
function literal, yet the printer emits no DO keyword at all for it (the
ellipsis branch is taken), so the unrestricted printer half of the claim —
whose required output always contains the DO keyword after the closing
paren — is false. -/
theorem C4_counterexample :
    cEll.args.getLast? = some (.funcLit ⟨3, ⟨0, [], 0⟩, none⟩ ⟨4, [], 5, true⟩) ∧
    posIsValid cEll.ellipsis = true ∧
    countDO (expr1Call (fun _ => 1) cEll 1) = 0 :=
  ⟨rfl, rfl, rfl⟩

/-- The concrete rhs-or-type sub-parser of the C4 witness: consumes one
integer literal. -/
def wRhs : RhsOrTypeParser := fun st =>
  if st.tok = .INT then .ok (.basicLit ⟨st.pos, .INT, st.lit⟩, next st)
  else .error (.panicStr "operand")

/-- The trivial signature sub-parser of the witnesses: empty parameter
list, no result, nothing consumed. -/
def wSig : SigParser := fun sc s => .ok (⟨0, [], 0⟩, none, sc, s)

/-- The trivial body sub-parser of the witnesses: an empty small block,
nothing consumed. -/
def wBody : BodyParser := fun _ s => .ok (⟨0, [], 0, true⟩, s)

/-- The C4 witness stream: ( 1 , 2 ) do …, i.e. f(1, 2) do. -/
def wStCall : PState :=
  { baseState with pos := 1, tok := .LPAREN
                   rest := [⟨2, .INT, "1"⟩, ⟨3, .COMMA, ""⟩, ⟨5, .INT, "2"⟩,
                            ⟨6, .RPAREN, ""⟩, ⟨8, .DO, ""⟩, ⟨20, .EOF, ""⟩] }

/-- The state after the opening paren of the C4 witness. -/
def wSt2 : PState := { next wStCall with exprLev := (next wStCall).exprLev + 1 }

/-- The state after the argument loop of the C4 witness (cursor on the
closing paren). -/
def wSt3 : PState := next (next (next wSt2))

/-- The C4 witness state after the expression level is restored. -/
def wSt4 : PState := { wSt3 with exprLev := wSt3.exprLev - 1 }

/-- The C4 witness state after the DO keyword. -/
def wSt6 : PState := next (next wSt4)

/-- The C4 witness state entering the do-literal body. -/
def wSt8 : PState := { wSt6 with exprLev := wSt6.exprLev + 1 }

/-- The C4 witness do-form call to print: f(1) do …, with no ellipsis. -/
def cDo : CallExpr :=
  .mk (.ident ⟨1, "f", .null⟩) 2
    [.basicLit ⟨3, .INT, "1"⟩, .funcLit ⟨9, ⟨0, [], 0⟩, none⟩ ⟨10, [], 11, true⟩] 0 7

/-- Witness for C4: parsing f(1, 2) do with the concrete sub-parsers
appends exactly the one trailing function literal (built at the DO
position 8), and the printer emits the do-form for the concrete call. -/
theorem C4_do_sugar_witness :
    parseCallOrConversion wRhs wSig wBody (.ident ⟨0, "f", .null⟩) wStCall =
      .ok (⟨.ident ⟨0, "f", .null⟩, 1,
            [.basicLit ⟨2, .INT, "1"⟩, .basicLit ⟨5, .INT, "2"⟩,
             .funcLit ⟨8, ⟨0, [], 0⟩, none⟩ ⟨0, [], 0, true⟩], 0, 6⟩,
           { wSt8 with exprLev := wSt8.exprLev - 1 }) ∧
    (∃ funPart,
      expr1Call (fun _ => 1) cDo 0 =
        [.posP (exprPos (.callExpr cDo))] ++ funPart ++
        [.posP cDo.lparen, .tokP .LPAREN,
         .exprListOut cDo.lparen cDo.args.dropLast
           (if cDo.args.length > 1 then 0 + 1 else 0) commaTerm cDo.rparen,
         .posP cDo.rparen, .tokP .RPAREN, .blank, .tokP .DO,
         .signatureOut (FieldList.mk 0 [] 0) none, .adjBlockOut ⟨10, [], 11, true⟩]) := by
  have h := C4_do_sugar wRhs wSig wBody (.ident ⟨0, "f", .null⟩) wStCall wSt2 wSt3
    wSt4 (next wSt4) wSt6 wSt6 wSt8 wSt8
    [.basicLit ⟨2, .INT, "1"⟩, .basicLit ⟨5, .INT, "2"⟩] 0 (FieldList.mk 0 [] 0) none
    (NewScope wSt6.topScope)
    ⟨0, [], 0, true⟩ (fun _ => 1) cDo 0 ⟨9, ⟨0, [], 0⟩, none⟩ ⟨10, [], 11, true⟩
    rfl rfl rfl rfl rfl rfl rfl rfl rfl rfl rfl rfl rfl
  exact h

theorem next0_pkgScope (st : PState) : (next0 st).pkgScope = st.pkgScope := by
  unfold next0
  cases st.rest <;> rfl

theorem consumeCommentGroupAux_pkgScope (fuel : Nat) :
    ∀ (n : Nat) (st : PState) (endline : Nat) (acc : List Comment),
      (consumeCommentGroupAux fuel n st endline acc).2.2.pkgScope = st.pkgScope := by
  induction fuel with
  | zero => intro n st endline acc; rfl
  | succ fuel ih =>
    intro n st endline acc
    unfold consumeCommentGroupAux
    split
    · rw [ih]
      exact next0_pkgScope st
    · rfl

theorem consumeCommentGroup_pkgScope (n : Nat) (st : PState) :
    (consumeCommentGroup n st).2.2.pkgScope = st.pkgScope := by
  unfold consumeCommentGroup
  exact consumeCommentGroupAux_pkgScope _ _ _ _ _

theorem nextCommentsLoop_pkgScope (fuel : Nat) :
    ∀ (st : PState) (c : Option CommentGroup) (e : Int),
      (nextCommentsLoop fuel st c e).2.2.pkgScope = st.pkgScope := by
  induction fuel with
  | zero => intro st c e; rfl
  | succ fuel ih =>
    intro st c e
    unfold nextCommentsLoop
    split
    · rw [ih]
      exact consumeCommentGroup_pkgScope _ _
    · rfl

theorem nextLineCommentStep_pkgScope (st2 : PState) (prev : Pos) :
    (nextLineCommentStep st2 prev).2.pkgScope = st2.pkgScope := by
  unfold nextLineCommentStep
  dsimp only
  split
  · split
    · exact consumeCommentGroup_pkgScope 0 st2
    · exact consumeCommentGroup_pkgScope 0 st2
  · rfl

theorem next_pkgScope (st : PState) : (next st).pkgScope = st.pkgScope := by
  unfold next
  dsimp only
  split
  · split
    · rw [show ∀ (s : PState) (c : Option CommentGroup),
          ({ s with leadComment := c } : PState).pkgScope = s.pkgScope from fun _ _ => rfl]
      rw [nextCommentsLoop_pkgScope, nextLineCommentStep_pkgScope]
      exact next0_pkgScope _
    · rw [nextCommentsLoop_pkgScope, nextLineCommentStep_pkgScope]
      exact next0_pkgScope _
  · exact next0_pkgScope _

theorem error_ok_pkgScope {st st' : PState} {p : Pos} {m : String}
    (h : error st p m = .ok st') : st'.pkgScope = st.pkgScope := by
  unfold error at h
  dsimp only at h
  split at h
  · cases h; rfl
  · split at h
    · cases h
    · cases h; rfl

/-- Full case analysis of declare1: the state's package scope is
untouched, the identifier is pointed at the new object, and the scope
either is unchanged or has gained the object under the identifier's
name. -/
theorem declare1_ok_inv {d : ObjDecl} {dt : Option Int} {sc : Scope} {k : ObjKind}
    {i : Ident} {st : PState} {i' : Ident} {sc' : Scope} {st' : PState}
    (h : declare1 d dt sc k i st = .ok (i', sc', st')) :
    st'.pkgScope = st.pkgScope ∧
    i' = i.setObj (.ptr (.mk k i.name d dt)) ∧
    (sc' = sc ∨ sc'.lookup i.name = some (.mk k i.name d dt)) := by
  by_cases hnull : i.obj.isNull = true
  · simp only [declare1, assert, hnull, if_true] at h
    by_cases hnb : i.name = "_"
    · simp only [hnb, ne_eq, not_true_eq_false, if_false] at h
      cases h
      exact ⟨rfl, by simp [hnb], Or.inl rfl⟩
    · simp only [ne_eq, hnb, not_false_eq_true, if_true] at h
      cases hins : sc.insert (Object.mk k i.name d dt) with
      | mk sc2 altO =>
        rw [hins] at h
        cases altO with
        | none =>
          simp only [] at h
          cases h
          refine ⟨rfl, rfl, Or.inr ?_⟩
          unfold Scope.insert at hins
          cases hlook : sc.lookup (Object.mk k i.name d dt).name with
          | some alt => rw [hlook] at hins; cases hins
          | none =>
            rw [hlook] at hins
            cases hins
            rw [Object_name_mk] at hlook
            show (sc.objects ++ [(i.name, Object.mk k i.name d dt)]).lookup i.name = _
            have hgen : ∀ l : List (String × Object), l.lookup i.name = none →
                (l ++ [(i.name, Object.mk k i.name d dt)]).lookup i.name =
                  some (Object.mk k i.name d dt) := by
              intro l
              induction l with
              | nil => intro _; simp [List.lookup]
              | cons a t ih =>
                intro hl
                obtain ⟨ka, va⟩ := a
                cases hk : (i.name == ka) with
                | true =>
                  exfalso
                  simp only [List.lookup, hk] at hl
                  cases hl
                | false =>
                  simp only [List.cons_append, List.lookup, hk] at hl ⊢
                  exact ih hl
            exact hgen sc.objects hlook
        | some alt =>
          have hscEq : sc2 = sc := by
            unfold Scope.insert at hins
            cases hlook : sc.lookup (Object.mk k i.name d dt).name with
            | some a => rw [hlook] at hins; cases hins; rfl
            | none => rw [hlook] at hins; cases hins
          subst hscEq
          simp only [] at h
          by_cases hde : st.mode.declarationErrors = true
          · simp only [hde, if_true] at h
            cases herr : error st (i.setObj (.ptr (.mk k i.name d dt))).pos
                (i.name ++ " redeclared in this block" ++
                  (if posIsValid alt.posOf = true then
                    "\n\tprevious declaration at " ++ (st.position alt.posOf).str
                  else "")) with
            | error p => rw [herr] at h; cases h
            | ok stE =>
              rw [herr] at h
              cases h
              exact ⟨error_ok_pkgScope herr, rfl, Or.inl rfl⟩
          · simp only [hde, if_false] at h
            cases h
            exact ⟨rfl, rfl, Or.inl rfl⟩
  · simp only [declare1, assert, hnull, if_false] at h
    cases h

theorem declare_single_inv {d : ObjDecl} {dt : Option Int} {sc : Scope} {k : ObjKind}
    {i : Ident} {st : PState} {ids : List Ident} {sc' : Scope} {st' : PState}
    (h : declare d dt k sc [i] st = .ok (ids, sc', st')) :
    st'.pkgScope = st.pkgScope ∧
    (sc' = sc ∨ sc'.lookup i.name = some (.mk k i.name d dt)) := by
  unfold declare at h
  cases hd : declare1 d dt sc k i st with
  | error p => rw [hd] at h; cases h
  | ok res =>
    obtain ⟨i1, sc1, st1⟩ := res
    rw [hd] at h
    simp only [declare] at h
    cases h
    obtain ⟨hpkg, _, hsc⟩ := declare1_ok_inv hd
    exact ⟨hpkg, hsc⟩

/-- parseIdent on an IDENT token builds the identifier from the cursor
and advances. -/
theorem parseIdent_ok_of_tok {st : PState} (h : st.tok = .IDENT) :
    parseIdent st = .ok (⟨st.pos, st.lit, .null⟩, next st) := by
  simp [parseIdent, h]

/-- Resolving a fresh identifier expression keeps its position and name:
only the Obj slot changes (to the hit, the unresolved sentinel, or not at
all for blank identifiers). -/
theorem resolve_ident_shape {p : Pos} {n : String} {st : PState} {x' : Expr} {st' : PState}
    (h : resolve (.ident ⟨p, n, .null⟩) st = .ok (x', st')) :
    ∃ slot, x' = .ident ⟨p, n, slot⟩ := by
  unfold resolve tryResolve assert at h
  simp only [Ident.obj, ObjSlot.isNull, if_true, Ident.name] at h
  by_cases hb : n = "_"
  · subst hb
    simp only [if_true] at h
    cases h
    exact ⟨.null, rfl⟩
  · simp only [hb, if_false] at h
    cases hts : st.topScope with
    | none =>
      rw [hts] at h
      dsimp only at h
      cases h
      exact ⟨.unres, rfl⟩
    | some sc =>
      rw [hts] at h
      dsimp only at h
      cases hcl : Scope.chainLookup sc n with
      | some obj =>
        rw [hcl] at h
        dsimp only at h
        cases h
        exact ⟨.ptr obj, rfl⟩
      | none =>
        rw [hcl] at h
        dsimp only at h
        cases h
        exact ⟨.unres, rfl⟩

/-- The Object that parseReceiver declares for the synthetic "self"
receiver of the given receiver type: a variable named self whose
declaring node is the receiver field (with the not-yet-linked
identifier, as at the moment declare snapshots it). -/
def selfObj (typ : Expr) : Object :=
  .mk .Var "self" (.fld ⟨none, [⟨NoPos, "self", .null⟩], some typ, none, none⟩) none

/-- parseReceiver on an identifier receiver type: "self" is declared into
the fresh function scope and the type is resolved. -/
theorem parseReceiver_ident (p : Pos) (n : String) (outer : Option Scope) (st : PState)
    {typ' : Expr} {st' : PState}
    (hr : resolve (.ident ⟨p, n, .null⟩) st = .ok (typ', st')) :
    parseReceiver (.ident ⟨p, n, .null⟩) (NewScope outer) st =
      .ok (⟨none, [⟨NoPos, "self", .ptr (selfObj (.ident ⟨p, n, .null⟩))⟩],
            some typ', none, none⟩,
           .mk outer [("self", selfObj (.ident ⟨p, n, .null⟩))], st') := by
  have hd : declare (.fld ⟨none, [⟨NoPos, "self", .null⟩],
        some (.ident ⟨p, n, .null⟩), none, none⟩) none .Var (NewScope outer)
      [⟨NoPos, "self", .null⟩] st =
      .ok ([⟨NoPos, "self", .ptr (selfObj (.ident ⟨p, n, .null⟩))⟩],
           .mk outer [("self", selfObj (.ident ⟨p, n, .null⟩))], st) := by
    simp [declare, declare1, assert, Scope.insert, Scope.lookup, NewScope, selfObj,
      ObjSlot.isNull, Ident.obj, Ident.name, Ident.setObj, Scope.outerS, Scope.objects,
      List.lookup]
  simp only [parseReceiver, hd, hr]

/-- parseReceiver on a star receiver type: "self" is declared, the type is
not resolved, and the state is otherwise untouched. -/
theorem parseReceiver_star (s : Pos) (i : Ident) (outer : Option Scope) (st : PState) :
    parseReceiver (.starExpr s (.ident i)) (NewScope outer) st =
      .ok (⟨none, [⟨NoPos, "self", .ptr (selfObj (.starExpr s (.ident i)))⟩],
            some (.starExpr s (.ident i)), none, none⟩,
           .mk outer [("self", selfObj (.starExpr s (.ident i)))], st) := by
  have hd : declare (.fld ⟨none, [⟨NoPos, "self", .null⟩],
        some (.starExpr s (.ident i)), none, none⟩) none .Var (NewScope outer)
      [⟨NoPos, "self", .null⟩] st =
      .ok ([⟨NoPos, "self", .ptr (selfObj (.starExpr s (.ident i)))⟩],
           .mk outer [("self", selfObj (.starExpr s (.ident i)))], st) := by
    simp [declare, declare1, assert, Scope.insert, Scope.lookup, NewScope, selfObj,
      ObjSlot.isNull, Ident.obj, Ident.name, Ident.setObj, Scope.outerS, Scope.objects,
      List.lookup]
  simp only [parseReceiver, hd]

/-- C5: a declaration func T.m(…) (or func *T.m(…)) parses as a method
whose receiver field list holds exactly one field: its Names is the single
synthetic identifier "self" (pointed at the declared variable object) and
its Type is the named type T (position and name preserved by resolution)
— or the star expression over it; the synthetic "self" is declared as a
variable in the function scope handed to the signature and body
sub-parsers. -/
theorem C5_method_receiver (sig : SigParser) (body : BodyParser)
    (st stR stSig stB : PState) (typ' : Expr)
    (params : FieldList) (results : Option FieldList) (scope3 : Scope) (bodyB : BlockStmt)
    (stS stSsig stSb : PState)
    (paramsS : FieldList) (resultsS : Option FieldList) (scopeS3 : Scope) (bodySB : BlockStmt)
    (h1 : st.tok = .FUNC)
    (h2 : (next st).tok = .IDENT)
    (h3 : (next (next st)).tok = .PERIOD)
    (hr : resolve (.ident ⟨(next st).pos, (next st).lit, .null⟩) (next (next st)) =
      .ok (typ', stR))
    (h5 : (next stR).tok = .IDENT)
    (hsig : sig (.mk (next st).topScope
        [("self", selfObj (.ident ⟨(next st).pos, (next st).lit, .null⟩))])
        (next (next stR)) = .ok (params, results, scope3, stSig))
    (hbody : body scope3 stSig = .ok (bodyB, stB))
    (hS1 : stS.tok = .FUNC)
    (hS2 : (next stS).tok = .MUL)
    (hS3 : (next (next stS)).tok = .IDENT)
    (hS4 : (next (next (next stS))).tok = .PERIOD)
    (hS5 : (next (next (next (next stS)))).tok = .IDENT)
    (hSsig : sig (.mk (next stS).topScope
        [("self", selfObj (.starExpr (next stS).pos
            (.ident ⟨(next (next stS)).pos, (next (next stS)).lit, .null⟩)))])
        (next (next (next (next (next stS))))) =
      .ok (paramsS, resultsS, scopeS3, stSsig))
    (hSbody : body scopeS3 stSsig = .ok (bodySB, stSb)) :
    (parseFuncDecl sig body st =
      .ok (⟨st.leadComment,
            some ⟨(next st).pos,
                  [⟨none, [⟨NoPos, "self",
                      .ptr (selfObj (.ident ⟨(next st).pos, (next st).lit, .null⟩))⟩],
                    some typ', none, none⟩],
                  (next (next stR)).pos⟩,
            ⟨(next stR).pos, (next stR).lit, .null⟩,
            ⟨st.pos, params, results⟩, bodyB⟩, stB)) ∧
    (∃ slot, typ' = .ident ⟨(next st).pos, (next st).lit, slot⟩) ∧
    ((Scope.mk (next st).topScope
        [("self", selfObj (.ident ⟨(next st).pos, (next st).lit, .null⟩))]).lookup "self" =
      some (selfObj (.ident ⟨(next st).pos, (next st).lit, .null⟩))) ∧
    (selfObj (.ident ⟨(next st).pos, (next st).lit, .null⟩)).kind = .Var ∧
    (parseFuncDecl sig body stS =
      .ok (⟨stS.leadComment,
            some ⟨(next stS).pos,
                  [⟨none, [⟨NoPos, "self",
                      .ptr (selfObj (.starExpr (next stS).pos
                        (.ident ⟨(next (next stS)).pos, (next (next stS)).lit, .null⟩)))⟩],
                    some (.starExpr (next stS).pos
                      (.ident ⟨(next (next stS)).pos, (next (next stS)).lit, .null⟩)),
                    none, none⟩],
                  (next (next (next (next (next stS))))).pos⟩,
            ⟨(next (next (next (next stS)))).pos, (next (next (next (next stS)))).lit, .null⟩,
            ⟨stS.pos, paramsS, resultsS⟩, bodySB⟩, stSb)) ∧
    ((Scope.mk (next stS).topScope
        [("self", selfObj (.starExpr (next stS).pos
            (.ident ⟨(next (next stS)).pos, (next (next stS)).lit, .null⟩)))]).lookup "self" =
      some (selfObj (.starExpr (next stS).pos
        (.ident ⟨(next (next stS)).pos, (next (next stS)).lit, .null⟩)))) := by
  refine ⟨?_, resolve_ident_shape hr, by simp [Scope.lookup, Scope.objects, List.lookup],
    rfl, ?_, by simp [Scope.lookup, Scope.objects, List.lookup]⟩
  · have hmul : ((next st).tok = .MUL) = False := by
      rw [h2]; simp
    simp only [parseFuncDecl, expect_ok_of_tok h1, hmul, if_false,
      parseIdent_ok_of_tok h2, h3, if_true,
      parseReceiver_ident (next st).pos (next st).lit (next st).topScope (next (next st)) hr,
      parseIdent_ok_of_tok h5, parseFuncDeclRest, hsig, hbody]
  · simp only [parseFuncDecl, expect_ok_of_tok hS1, hS2, if_true,
      expect_ok_of_tok hS2, parseIdent_ok_of_tok hS3,
      parseReceiver_star (next stS).pos
        ⟨(next (next stS)).pos, (next (next stS)).lit, .null⟩ (next stS).topScope
        (next (next (next stS))),
      expect_ok_of_tok hS4, parseIdent_ok_of_tok hS5, parseFuncDeclRest, hSsig, hSbody]

/-- Witness stream for C5, plain receiver: func T.foo with T at 6, the
period at 7, foo at 8. -/
def wStFuncT : PState :=
  { baseState with pos := 1, tok := .FUNC
                   rest := [⟨6, .IDENT, "T"⟩, ⟨7, .PERIOD, ""⟩,
                            ⟨8, .IDENT, "foo"⟩, ⟨12, .EOF, ""⟩] }

/-- Witness stream for C5, star receiver: func *T.foo with the star at 5. -/
def wStFuncS : PState :=
  { baseState with pos := 1, tok := .FUNC
                   rest := [⟨5, .MUL, ""⟩, ⟨6, .IDENT, "T"⟩, ⟨7, .PERIOD, ""⟩,
                            ⟨8, .IDENT, "foo"⟩, ⟨12, .EOF, ""⟩] }

/-- The state after resolving the receiver type T of the C5 witness: the
type identifier was collected as unresolved. -/
def wStRT : PState := { next (next wStFuncT) with unresolved := [⟨6, "T", .unres⟩] }

/-- Witness for C5: parsing func T.foo (and func *T.foo) with the concrete
sub-parsers yields a FuncDecl whose receiver list holds the single field
with Names = [self] and Type the named type T (resp. *T). -/
theorem C5_method_receiver_witness :
    parseFuncDecl wSig wBody wStFuncT =
      .ok (⟨none,
            some ⟨6, [⟨none, [⟨0, "self", .ptr (selfObj (.ident ⟨6, "T", .null⟩))⟩],
                        some (.ident ⟨6, "T", .unres⟩), none, none⟩], 12⟩,
            ⟨8, "foo", .null⟩, ⟨1, ⟨0, [], 0⟩, none⟩, ⟨0, [], 0, true⟩⟩,
           next (next wStRT)) ∧
    parseFuncDecl wSig wBody wStFuncS =
      .ok (⟨none,
            some ⟨5, [⟨none, [⟨0, "self",
                        .ptr (selfObj (.starExpr 5 (.ident ⟨6, "T", .null⟩)))⟩],
                        some (.starExpr 5 (.ident ⟨6, "T", .null⟩)), none, none⟩], 12⟩,
            ⟨8, "foo", .null⟩, ⟨1, ⟨0, [], 0⟩, none⟩, ⟨0, [], 0, true⟩⟩,
           next (next (next (next (next wStFuncS))))) := by
  have h := C5_method_receiver wSig wBody wStFuncT wStRT (next (next wStRT))
    (next (next wStRT)) (.ident ⟨6, "T", .unres⟩) ⟨0, [], 0⟩ none
    (Scope.mk (next wStFuncT).topScope [("self", selfObj (.ident ⟨6, "T", .null⟩))])
    ⟨0, [], 0, true⟩
    wStFuncS (next (next (next (next (next wStFuncS)))))
    (next (next (next (next (next wStFuncS))))) ⟨0, [], 0⟩ none
    (Scope.mk (next wStFuncS).topScope
      [("self", selfObj (.starExpr 5 (.ident ⟨6, "T", .null⟩)))])
    ⟨0, [], 0, true⟩
    rfl rfl rfl rfl rfl rfl rfl rfl rfl rfl rfl rfl rfl rfl
  exact ⟨h.1, h.2.2.2.2.1⟩

theorem tryResolve_ok_pkgScope {x : Expr} {c : Bool} {st : PState} {x' : Expr} {st' : PState}
    (h : tryResolve x c st = .ok (x', st')) : st'.pkgScope = st.pkgScope := by
  cases x with
  | ident i =>
    unfold tryResolve assert at h
    by_cases hn : i.obj.isNull = true
    · simp only [hn, if_true] at h
      by_cases hb : i.name = "_"
      · simp only [hb, if_true] at h
        cases h
        rfl
      · simp only [hb, if_false] at h
        cases hts : st.topScope with
        | none =>
          rw [hts] at h
          dsimp only at h
          by_cases hc : c = true
          · simp only [hc, if_true] at h; cases h; rfl
          · simp only [hc, if_false] at h; cases h; rfl
        | some sc =>
          rw [hts] at h
          dsimp only at h
          cases hcl : Scope.chainLookup sc i.name with
          | some obj => rw [hcl] at h; dsimp only at h; cases h; rfl
          | none =>
            rw [hcl] at h
            dsimp only at h
            by_cases hc : c = true
            · simp only [hc, if_true] at h; cases h; rfl
            · simp only [hc, if_false] at h; cases h; rfl
    · simp only [hn, if_false] at h
      cases h
  | basicLit b => unfold tryResolve at h; cases h; rfl
  | funcLit t b => unfold tryResolve at h; cases h; rfl
  | parenExpr l x r => unfold tryResolve at h; cases h; rfl
  | selectorExpr x s => unfold tryResolve at h; cases h; rfl
  | starExpr s x => unfold tryResolve at h; cases h; rfl
  | callExpr c2 => unfold tryResolve at h; cases h; rfl
  | ellipsisE p e => unfold tryResolve at h; cases h; rfl
  | funcTypeE t => unfold tryResolve at h; cases h; rfl
  | badExpr f t => unfold tryResolve at h; cases h; rfl

theorem parseReceiver_ok_pkgScope {typ : Expr} {scope : Scope} {st : PState}
    {f : Field} {sc : Scope} {st' : PState}
    (h : parseReceiver typ scope st = .ok (f, sc, st')) : st'.pkgScope = st.pkgScope := by
  unfold parseReceiver at h
  dsimp only at h
  cases hd : declare (.fld ⟨none, [⟨NoPos, "self", .null⟩], some typ, none, none⟩)
      none .Var scope [⟨NoPos, "self", .null⟩] st with
  | error p => rw [hd] at h; cases h
  | ok r =>
    obtain ⟨ids, sc1, st1⟩ := r
    rw [hd] at h
    dsimp only at h
    have hp1 : st1.pkgScope = st.pkgScope := (declare_single_inv hd).1
    split at h
    · rename_i i0
      cases hr : resolve (.ident i0) st1 with
      | error p =>
        rw [hr] at h
        cases h
      | ok r2 =>
        obtain ⟨t2, st2⟩ := r2
        rw [hr] at h
        dsimp only at h
        cases h
        exact (tryResolve_ok_pkgScope hr).trans hp1
    · cases h
      exact hp1

/-- parseFuncDeclRest with a receiver never touches the package scope. -/
theorem parseFuncDeclRest_some_pkgScope {sig : SigParser} {body : BodyParser}
    {doc : Option CommentGroup} {pos lparen : Pos} {recv : Field} {scope : Scope}
    {ident : Ident} {st : PState} {decl : FuncDecl} {st' : PState}
    (hsigP : ∀ sc s params results sc2 s2,
      sig sc s = .ok (params, results, sc2, s2) → s2.pkgScope = s.pkgScope)
    (hbodyP : ∀ sc s b s2, body sc s = .ok (b, s2) → s2.pkgScope = s.pkgScope)
    (h : parseFuncDeclRest sig body doc pos lparen (some recv) scope ident st =
      .ok (decl, st')) :
    st'.pkgScope = st.pkgScope ∧ decl.recv = some ⟨lparen, [recv], st.pos⟩ := by
  unfold parseFuncDeclRest at h
  dsimp only at h
  cases hs : sig scope st with
  | error p => rw [hs] at h; cases h
  | ok r =>
    obtain ⟨params, results, sc2, s2⟩ := r
    rw [hs] at h
    dsimp only at h
    cases hb : body sc2 s2 with
    | error p => rw [hb] at h; cases h
    | ok r2 =>
      obtain ⟨bodyB, s3⟩ := r2
      rw [hb] at h
      dsimp only at h
      cases h
      exact ⟨(hbodyP _ _ _ _ hb).trans (hsigP _ _ _ _ _ _ hs), rfl⟩

/-- parseFuncDeclRest without a receiver: the declaration is receiverless
with the given name; for init the package scope is untouched, otherwise
it is either unchanged (collision or blank) or has gained a function
object under the name. -/
theorem parseFuncDeclRest_none_pkgScope {sig : SigParser} {body : BodyParser}
    {doc : Option CommentGroup} {pos lparen : Pos} {scope : Scope}
    {ident : Ident} {st : PState} {decl : FuncDecl} {st' : PState}
    (hsigP : ∀ sc s params results sc2 s2,
      sig sc s = .ok (params, results, sc2, s2) → s2.pkgScope = s.pkgScope)
    (hbodyP : ∀ sc s b s2, body sc s = .ok (b, s2) → s2.pkgScope = s.pkgScope)
    (h : parseFuncDeclRest sig body doc pos lparen none scope ident st = .ok (decl, st')) :
    decl.recv = none ∧ decl.name = ident ∧
    (ident.name = "init" → st'.pkgScope = st.pkgScope) ∧
    (ident.name ≠ "init" →
      st'.pkgScope = st.pkgScope ∨
      ∃ d, st'.pkgScope.lookup ident.name = some (.mk .Fun ident.name d none)) := by
  unfold parseFuncDeclRest at h
  dsimp only at h
  cases hs : sig scope st with
  | error p => rw [hs] at h; cases h
  | ok r =>
    obtain ⟨params, results, sc2, s2⟩ := r
    rw [hs] at h
    dsimp only at h
    cases hb : body sc2 s2 with
    | error p => rw [hb] at h; cases h
    | ok r2 =>
      obtain ⟨bodyB, s3⟩ := r2
      rw [hb] at h
      dsimp only at h
      have hp3 : s3.pkgScope = st.pkgScope :=
        (hbodyP _ _ _ _ hb).trans (hsigP _ _ _ _ _ _ hs)
      by_cases hinit : ident.name = "init"
      · rw [if_neg (by simp [hinit])] at h
        cases h
        exact ⟨rfl, rfl, fun _ => hp3, fun hne => absurd hinit hne⟩
      · rw [if_pos (by simp [hinit])] at h
        cases hd : declare
            (.funcDecl ⟨doc, none, ident, ⟨pos, params, results⟩, bodyB⟩)
            none .Fun s3.pkgScope [ident] s3 with
        | error p => rw [hd] at h; cases h
        | ok r3 =>
          obtain ⟨ids, pkg2, s4⟩ := r3
          rw [hd] at h
          dsimp only at h
          cases h
          refine ⟨rfl, rfl, fun hi => absurd hi hinit, fun _ => ?_⟩
          rcases (declare_single_inv hd).2 with hsame | hlook
          · left
            show pkg2 = st.pkgScope
            rw [hsame]
            exact hp3
          · right
            exact ⟨_, hlook⟩

/-- C10: the parser inserts a function's name into the package scope only
when the declaration has no receiver and the name is not init: if the
package scope changed at all across parseFuncDecl (with signature and
body sub-parsers that do not touch it, as the source ones do not), the
parsed declaration is receiverless, its name is not init, and the new
package scope holds a function object under that name. -/
theorem C10_pkg_scope_only (sig : SigParser) (body : BodyParser)
    (st : PState) (decl : FuncDecl) (st' : PState)
    (hsigP : ∀ sc s params results sc2 s2,
      sig sc s = .ok (params, results, sc2, s2) → s2.pkgScope = s.pkgScope)
    (hbodyP : ∀ sc s b s2, body sc s = .ok (b, s2) → s2.pkgScope = s.pkgScope)
    (hok : parseFuncDecl sig body st = .ok (decl, st'))
    (hch : st'.pkgScope ≠ st.pkgScope) :
    decl.recv = none ∧ decl.name.name ≠ "init" ∧
    ∃ o, st'.pkgScope.lookup decl.name.name = some o ∧ o.kind = .Fun ∧
      o.name = decl.name.name := by
  unfold parseFuncDecl at hok
  cases hex : expect .FUNC st with
  | error p => rw [hex] at hok; cases hok
  | ok r =>
    obtain ⟨pos, st1⟩ := r
    obtain ⟨_, _, hst1⟩ := expect_ok_inv hex
    rw [hex] at hok
    dsimp only at hok
    have hp1 : st1.pkgScope = st.pkgScope := by rw [hst1]; exact next_pkgScope st
    by_cases hmul : st1.tok = .MUL
    · rw [if_pos hmul] at hok
      cases he2 : expect .MUL st1 with
      | error p => rw [he2] at hok; cases hok
      | ok r2 =>
        obtain ⟨star, st2⟩ := r2
        obtain ⟨_, _, hst2⟩ := expect_ok_inv he2
        rw [he2] at hok
        dsimp only at hok
        cases hpi : parseIdent st2 with
        | error p => rw [hpi] at hok; cases hok
        | ok r3 =>
          obtain ⟨typ, st3⟩ := r3
          obtain ⟨_, _, hst3⟩ := parseIdent_ok_inv hpi
          rw [hpi] at hok
          dsimp only at hok
          cases hpr : parseReceiver (.starExpr star (.ident typ))
              (NewScope st1.topScope) st3 with
          | error p => rw [hpr] at hok; cases hok
          | ok r4 =>
            obtain ⟨recv, scope2, st4⟩ := r4
            rw [hpr] at hok
            dsimp only at hok
            cases he3 : expect .PERIOD st4 with
            | error p => rw [he3] at hok; cases hok
            | ok r5 =>
              obtain ⟨pp, st5⟩ := r5
              obtain ⟨_, _, hst5⟩ := expect_ok_inv he3
              rw [he3] at hok
              dsimp only at hok
              cases hpi2 : parseIdent st5 with
              | error p => rw [hpi2] at hok; cases hok
              | ok r6 =>
                obtain ⟨ident, st6⟩ := r6
                obtain ⟨_, _, hst6⟩ := parseIdent_ok_inv hpi2
                rw [hpi2] at hok
                dsimp only at hok
                exfalso
                apply hch
                have h6 := (parseFuncDeclRest_some_pkgScope hsigP hbodyP hok).1
                rw [h6, hst6, next_pkgScope, hst5, next_pkgScope]
                rw [show st4.pkgScope = st3.pkgScope from parseReceiver_ok_pkgScope hpr]
                rw [hst3, next_pkgScope, hst2, next_pkgScope]
                exact hp1
    · rw [if_neg hmul] at hok
      cases hpi : parseIdent st1 with
      | error p => rw [hpi] at hok; cases hok
      | ok r2 =>
        obtain ⟨ident0, st2⟩ := r2
        obtain ⟨_, _, hst2⟩ := parseIdent_ok_inv hpi
        rw [hpi] at hok
        dsimp only at hok
        have hp2 : st2.pkgScope = st.pkgScope := by
          rw [hst2, next_pkgScope]; exact hp1
        by_cases hper : st2.tok = .PERIOD
        · rw [if_pos hper] at hok
          cases hpr : parseReceiver (.ident ident0) (NewScope st1.topScope) st2 with
          | error p => rw [hpr] at hok; cases hok
          | ok r3 =>
            obtain ⟨recv, scope2, st3⟩ := r3
            rw [hpr] at hok
            dsimp only at hok
            cases hpi2 : parseIdent (next st3) with
            | error p => rw [hpi2] at hok; cases hok
            | ok r4 =>
              obtain ⟨ident, st5⟩ := r4
              obtain ⟨_, _, hst5⟩ := parseIdent_ok_inv hpi2
              rw [hpi2] at hok
              dsimp only at hok
              exfalso
              apply hch
              have h6 := (parseFuncDeclRest_some_pkgScope hsigP hbodyP hok).1
              rw [h6, hst5, next_pkgScope, next_pkgScope]
              rw [show st3.pkgScope = st2.pkgScope from parseReceiver_ok_pkgScope hpr]
              exact hp2
        · rw [if_neg hper] at hok
          obtain ⟨hrecv, hname, hinitP, hnotinit⟩ :=
            parseFuncDeclRest_none_pkgScope hsigP hbodyP hok
          by_cases hinit : ident0.name = "init"
          · exact absurd ((hinitP hinit).trans hp2) hch
          · rcases hnotinit hinit with hsame | ⟨d, hlook⟩
            · exact absurd (hsame.trans hp2) hch
            · refine ⟨hrecv, ?_, ?_⟩
              · rw [hname]; exact hinit
              · refine ⟨Object.mk .Fun ident0.name d none, ?_, rfl, ?_⟩
                · rw [hname]; exact hlook
                · rw [hname]; rfl

/-- Witness stream for C10: a plain declaration func foo. -/
def wStFuncPlain : PState :=
  { baseState with pos := 1, tok := .FUNC
                   rest := [⟨6, .IDENT, "foo"⟩, ⟨12, .EOF, ""⟩] }

/-- The FuncDecl parsed from the C10 witness stream. -/
def declW : FuncDecl :=
  ⟨none, none, ⟨6, "foo", .null⟩, ⟨1, ⟨0, [], 0⟩, none⟩, ⟨0, [], 0, true⟩⟩

/-- The function object the C10 witness inserts into the package scope. -/
def objW : Object := .mk .Fun "foo" (.funcDecl declW) none

/-- The state after parsing the C10 witness: foo entered the package
scope. -/
def stW' : PState :=
  { next (next wStFuncPlain) with pkgScope := .mk none [("foo", objW)] }

/-- Witness for C10: parsing func foo changes the package scope, and the
theorem then yields that the declaration is receiverless, not init, and
that the scope now holds the function object foo. -/
theorem C10_pkg_scope_only_witness :
    declW.recv = none ∧ declW.name.name ≠ "init" ∧
    ∃ o, stW'.pkgScope.lookup declW.name.name = some o ∧ o.kind = .Fun ∧
      o.name = declW.name.name := by
  refine C10_pkg_scope_only wSig wBody wStFuncPlain declW stW'
    (fun sc s a b c d h => by cases h; rfl)
    (fun sc s b2 s2 h => by cases h; rfl) rfl ?_
  intro hEq
  injection hEq with hOuter hObjs
  exact List.cons_ne_nil _ _ hObjs

theorem populateLoop_length (j : Nat) :
    ∀ (n : Nat) (m : List Bool) (i : Nat), j - i ≤ n →
      (populateLoop m i j).length = m.length := by
  intro n
  induction n with
  | zero =>
    intro m i hn
    unfold populateLoop
    rw [if_neg (by omega)]
  | succ n ih =>
    intro m i hn
    unfold populateLoop
    by_cases hij : i < j
    · rw [if_pos hij, ih (m.set i true) (i + 1) (by omega)]
      exact List.length_set m i true
    · rw [if_neg hij]

theorem populateLoop_get? (j : Nat) :
    ∀ (n : Nat) (m : List Bool) (i k : Nat), j - i ≤ n →
      (populateLoop m i j).get? k =
        if i ≤ k ∧ k < j then (if k < m.length then some true else none)
        else m.get? k := by
  intro n
  induction n with
  | zero =>
    intro m i k hn
    unfold populateLoop
    rw [if_neg (by omega), if_neg (by omega)]
  | succ n ih =>
    intro m i k hn
    unfold populateLoop
    by_cases hij : i < j
    · rw [if_pos hij, ih (m.set i true) (i + 1) k (by omega)]
      by_cases hk1 : i + 1 ≤ k ∧ k < j
      · rw [if_pos hk1]
        rw [List.length_set]
        rw [if_pos (show i ≤ k ∧ k < j from ⟨by omega, hk1.2⟩)]
      · rw [if_neg hk1]
        by_cases hki : k = i
        · subst hki
          rw [if_pos (show k ≤ k ∧ k < j from ⟨le_refl k, hij⟩)]
          rw [List.get?_set_eq]
          cases hmk : m.get? k with
          | none =>
            rw [if_neg (by
              intro hlt
              rw [List.get?_eq_get hlt] at hmk
              cases hmk)]
            rfl
          | some b =>
            rw [if_pos (by
              by_contra hge
              rw [List.get?_eq_none.mpr (by omega)] at hmk
              cases hmk)]
            rfl
        · rw [List.get?_set_ne true m (show i ≠ k from fun hh => hki hh.symm)]
          rw [if_neg (by omega)]
    · rw [if_neg hij, if_neg (by omega)]

theorem populate_length (m : List Bool) (i j : Nat) (kt : Bool) :
    (populate m i j kt).length = m.length := by
  unfold populate
  by_cases hkt : kt = true
  · rw [if_pos hkt]
    exact populateLoop_length j j m i (by omega)
  · rw [if_neg hkt]

theorem populate_get? (m : List Bool) (i j k : Nat) (kt : Bool) :
    (populate m i j kt).get? k =
      if kt = true ∧ i ≤ k ∧ k < j then (if k < m.length then some true else none)
      else m.get? k := by
  unfold populate
  by_cases hkt : kt = true
  · rw [if_pos hkt, populateLoop_get? j j m i k (by omega)]
    by_cases hk : i ≤ k ∧ k < j
    · rw [if_pos hk, if_pos (show kt = true ∧ i ≤ k ∧ k < j from ⟨hkt, hk⟩)]
    · rw [if_neg hk, if_neg (by tauto)]
  · rw [if_neg hkt, if_neg (by tauto)]

/-- A maximal run [r, s) of value-carrying specs answers the
specification-side predicate uniformly: an index inside it satisfies ansP
exactly when some index of the run carries a type. -/
theorem run_char (specs : List ValueSpec) (r s k : Nat)
    (hsN : s ≤ specs.length) (hrk : r ≤ k) (hks : k < s)
    (hall : ∀ m, r ≤ m → m < s → hasVals specs m = true)
    (hleft : r = 0 ∨ hasVals specs (r - 1) = false)
    (hright : s = specs.length ∨ hasVals specs s = false) :
    ansP specs k ↔ ∃ j, r ≤ j ∧ j < s ∧ hasTy specs j = true := by
  constructor
  · rintro ⟨hVk, j, hjN, hrun, hTj⟩
    refine ⟨j, ?_, ?_, hTj⟩
    · by_contra hjr
      have hjr' : j < r := by omega
      have hr1 : r ≠ 0 := by omega
      have hV : hasVals specs (r - 1) = true := by
        apply hrun
        · omega
        · omega
      rcases hleft with h0 | hF
      · exact hr1 h0
      · rw [hV] at hF; cases hF
    · by_contra hjs
      have hsj : s ≤ j := by omega
      have hV : hasVals specs s = true := by
        apply hrun
        · omega
        · omega
      rcases hright with h0 | hF
      · omega
      · rw [hV] at hF; cases hF
  · rintro ⟨j, hrj, hjs, hTj⟩
    refine ⟨hall k hrk hks, j, by omega, ?_, hTj⟩
    intro m h1 h2
    apply hall
    · omega
    · omega

/-- get? of a replicate below its length. -/
theorem replicate_get?_lt (n k : Nat) (hk : k < n) :
    (List.replicate n false).get? k = some false := by
  induction n generalizing k with
  | zero => omega
  | succ n ih =>
    cases k with
    | zero => rfl
    | succ k => exact ih k (by omega)

/-- hasVals at an index given by get?. -/
theorem hasVals_of_get? (specs : List ValueSpec) (s : Nat) (t : ValueSpec)
    (hs : specs.get? s = some t) : hasVals specs s = t.values.isSome := by
  unfold hasVals
  rw [hs]

/-- hasTy at an index given by get?. -/
theorem hasTy_of_get? (specs : List ValueSpec) (s : Nat) (t : ValueSpec)
    (hs : specs.get? s = some t) : hasTy specs s = t.type.isSome := by
  unfold hasTy
  rw [hs]

/-- Invariant of keepTypeColumn's scan after the first s specs: the mask
keeps the list's length, settled entries agree with the specification-side
predicate, unprocessed entries are still false, and the accumulator
describes the open run of value-carrying specs exactly when one is open
(i0 = -1 otherwise, with the previous spec value-free). -/
def ktcInv (specs : List ValueSpec) (s : Nat)
    (st : Int × Bool × List Bool) : Prop :=
  st.2.2.length = specs.length ∧ s ≤ specs.length ∧
  ((st.1 = -1 ∧ (s = 0 ∨ hasVals specs (s - 1) = false) ∧
      (∀ k, k < s → (st.2.2.get? k = some true ↔ ansP specs k)) ∧
      (∀ k, s ≤ k → k < specs.length → st.2.2.get? k = some false)) ∨
    (∃ r : Nat, st.1 = (r : Int) ∧ r < s ∧
      (∀ q, r ≤ q → q < s → hasVals specs q = true) ∧
      (r = 0 ∨ hasVals specs (r - 1) = false) ∧
      (st.2.1 = true ↔ ∃ j, r ≤ j ∧ j < s ∧ hasTy specs j = true) ∧
      (∀ k, k < r → (st.2.2.get? k = some true ↔ ansP specs k)) ∧
      (∀ k, r ≤ k → k < specs.length → st.2.2.get? k = some false)))

/-- The scan invariant holds before any spec is processed. -/
theorem ktcInv_init (specs : List ValueSpec) :
    ktcInv specs 0 (-1, false, List.replicate specs.length false) := by
  refine ⟨by simp, Nat.zero_le _, Or.inl ⟨rfl, Or.inl rfl, ?_, ?_⟩⟩
  · intro k hk
    omega
  · intro k _ hk
    exact replicate_get?_lt specs.length k hk

/-- Flushing a finished maximal run through populate settles its entries
to the specification-side answer. -/
theorem flush_char (specs : List ValueSpec) (r s : Nat) (kt : Bool)
    (m : List Bool) (hlen : m.length = specs.length) (hsle : s ≤ specs.length)
    (hrs : r < s)
    (hrun : ∀ q, r ≤ q → q < s → hasVals specs q = true)
    (hlft : r = 0 ∨ hasVals specs (r - 1) = false)
    (hright : s = specs.length ∨ hasVals specs s = false)
    (hkt : kt = true ↔ ∃ j, r ≤ j ∧ j < s ∧ hasTy specs j = true)
    (hset : ∀ k, k < r → (m.get? k = some true ↔ ansP specs k))
    (hfresh : ∀ k, r ≤ k → k < specs.length → m.get? k = some false) :
    ∀ k, k < s → ((populate m r s kt).get? k = some true ↔ ansP specs k) := by
  intro k hk
  rw [populate_get? m r s k kt]
  by_cases hc : kt = true ∧ r ≤ k ∧ k < s
  · rw [if_pos hc, if_pos (show k < m.length by rw [hlen]; omega)]
    exact iff_of_true rfl
      ((run_char specs r s k hsle hc.2.1 hc.2.2 hrun hlft hright).mpr (hkt.mp hc.1))
  · rw [if_neg hc]
    by_cases hkr : k < r
    · exact hset k hkr
    · have hktF : ¬kt = true := fun h => hc ⟨h, by omega, by omega⟩
      rw [hfresh k (by omega) (by omega)]
      refine iff_of_false (by simp) ?_
      intro hans
      exact hktF (hkt.mpr
        ((run_char specs r s k hsle (by omega) (by omega) hrun hlft hright).mp hans))

/-- One step of keepTypeColumn's scan preserves the invariant. -/
theorem ktcStep_inv (specs : List ValueSpec) (s : Nat) (t : ValueSpec)
    (st : Int × Bool × List Bool) (hs : specs.get? s = some t)
    (hinv : ktcInv specs s st) :
    ktcInv specs (s + 1) (ktcStep st (s, t)) := by
  obtain ⟨i0, kt, m⟩ := st
  dsimp only [ktcInv] at hinv
  obtain ⟨hlen, hsle, hcase⟩ := hinv
  obtain ⟨hsN, -⟩ := List.get?_eq_some.mp hs
  have hVs : hasVals specs s = t.values.isSome := hasVals_of_get? specs s t hs
  have hTs : hasTy specs s = t.type.isSome := hasTy_of_get? specs s t hs
  simp only [ktcStep]
  by_cases hv : t.values.isSome = true
  · rw [if_pos hv]
    rcases hcase with ⟨hi0, hb, hset, hfresh⟩ |
      ⟨r, hi0, hrs, hrun, hlft, hkt, hset, hfresh⟩
    · subst hi0
      rw [if_pos (show (-1 : Int) < 0 by decide)]
      dsimp only [ktcInv]
      refine ⟨hlen, by omega, Or.inr ⟨s, rfl, by omega, ?_, hb, ?_, hset, hfresh⟩⟩
      · intro q h1 h2
        have hq : q = s := by omega
        subst hq
        rw [hVs]
        exact hv
      · by_cases ht : t.type.isSome = true
        · rw [if_pos ht]
          exact ⟨fun _ => ⟨s, le_refl s, by omega, by rw [hTs]; exact ht⟩,
                 fun _ => rfl⟩
        · rw [if_neg ht]
          constructor
          · intro h
            exact absurd h (by decide)
          · rintro ⟨j, h1, h2, h3⟩
            have hj : j = s := by omega
            subst hj
            rw [hTs] at h3
            exact absurd h3 ht
    · subst hi0
      rw [if_neg (show ¬((r : Int) < 0) by omega)]
      dsimp only [ktcInv]
      refine ⟨hlen, by omega, Or.inr ⟨r, rfl, by omega, ?_, hlft, ?_, hset, hfresh⟩⟩
      · intro q h1 h2
        by_cases hq : q = s
        · subst hq
          rw [hVs]
          exact hv
        · exact hrun q h1 (by omega)
      · by_cases ht : t.type.isSome = true
        · rw [if_pos ht]
          exact ⟨fun _ => ⟨s, by omega, by omega, by rw [hTs]; exact ht⟩,
                 fun _ => rfl⟩
        · rw [if_neg ht]
          constructor
          · intro h
            obtain ⟨j, h1, h2, h3⟩ := hkt.mp h
            exact ⟨j, h1, by omega, h3⟩
          · rintro ⟨j, h1, h2, h3⟩
            refine hkt.mpr ⟨j, h1, ?_, h3⟩
            by_cases hj : j = s
            · subst hj
              rw [hTs] at h3
              exact absurd h3 ht
            · omega
  · rw [if_neg hv]
    have hvF : t.values.isSome = false := by
      cases hvv : t.values.isSome
      · rfl
      · exact absurd hvv hv
    have hvF' : hasVals specs s = false := by
      rw [hVs]
      exact hvF
    rcases hcase with ⟨hi0, hb, hset, hfresh⟩ |
      ⟨r, hi0, hrs, hrun, hlft, hkt, hset, hfresh⟩
    · subst hi0
      rw [if_neg (show ¬((0 : Int) ≤ -1) by decide)]
      dsimp only [ktcInv]
      refine ⟨hlen, by omega, Or.inl ⟨rfl, Or.inr hvF', ?_, ?_⟩⟩
      · intro k hk
        by_cases hks : k = s
        · rw [hks, hfresh s (le_refl s) hsN]
          refine iff_of_false (by simp) ?_
          intro hans
          obtain ⟨h1, -⟩ := hans
          rw [hvF'] at h1
          simp at h1
        · exact hset k (by omega)
      · intro k h1 h2
        exact hfresh k (by omega) h2
    · subst hi0
      rw [if_pos (show (0 : Int) ≤ (r : Int) by omega)]
      dsimp only [ktcInv]
      have hto : ((r : Int)).toNat = r := by omega
      rw [hto]
      refine ⟨?_, by omega, Or.inl ⟨rfl, Or.inr hvF', ?_, ?_⟩⟩
      · rw [populate_length]
        exact hlen
      · intro k hk
        by_cases hks : k = s
        · rw [hks, populate_get? m r s s kt,
              if_neg (fun hc => absurd hc.2.2 (by omega))]
          rw [hfresh s (by omega) hsN]
          refine iff_of_false (by simp) ?_
          intro hans
          obtain ⟨h1, -⟩ := hans
          rw [hvF'] at h1
          simp at h1
        · exact flush_char specs r s kt m hlen hsle hrs hrun hlft
            (Or.inr hvF') hkt hset hfresh k (by omega)
      · intro k h1 h2
        rw [populate_get? m r s k kt,
            if_neg (fun hc => absurd hc.2.2 (by omega))]
        exact hfresh k (by omega) h2

/-- Folding the scan step over an enumerated suffix of the spec list
preserves the invariant. -/
theorem ktc_fold (specs : List ValueSpec) (suf : List ValueSpec) :
    ∀ (s : Nat) (st : Int × Bool × List Bool),
      (∀ k, suf.get? k = specs.get? (s + k)) →
      ktcInv specs s st →
      ktcInv specs (s + suf.length) (List.foldl ktcStep st (List.enumFrom s suf)) := by
  induction suf with
  | nil =>
    intro s st _ hinv
    exact hinv
  | cons t rest ih =>
    intro s st hsuf hinv
    have hs : specs.get? s = some t := (hsuf 0).symm
    have hsuf' : ∀ k, rest.get? k = specs.get? (s + 1 + k) := by
      intro k
      have h2 : s + 1 + k = s + (k + 1) := by omega
      rw [h2]
      exact hsuf (k + 1)
    have h := ih (s + 1) (ktcStep st (s, t)) hsuf' (ktcStep_inv specs s t st hs hinv)
    have he : s + (t :: rest).length = s + 1 + rest.length := by
      simp only [List.length_cons]
      omega
    rw [he]
    exact h

/-- C9: keepTypeColumn returns a mask of the specs' length whose entry i
is true exactly when spec i has initialization values and its maximal
contiguous run of value-carrying specs contains a spec with an explicit
type (the ansP reading of the claim), and entries for specs without
initialization values are always false. -/
theorem C9_keep_type_column (specs : List ValueSpec) :
    (keepTypeColumn specs).length = specs.length ∧
    (∀ i, i < specs.length →
      ((keepTypeColumn specs).get? i = some true ↔ ansP specs i)) ∧
    (∀ i, i < specs.length → hasVals specs i = false →
      (keepTypeColumn specs).get? i = some false) := by
  have hfold := ktc_fold specs specs 0
      (-1, false, List.replicate specs.length false)
      (fun k => by rw [Nat.zero_add]) (ktcInv_init specs)
  rw [Nat.zero_add] at hfold
  rcases hE : List.foldl ktcStep (-1, false, List.replicate specs.length false)
      (List.enumFrom 0 specs) with ⟨i0, kt, m⟩
  rw [hE] at hfold
  dsimp only [ktcInv] at hfold
  obtain ⟨hlen, -, hcase⟩ := hfold
  simp only [keepTypeColumn, List.enum]
  rw [hE]
  dsimp only
  rcases hcase with ⟨hi0, hb, hset, hfresh⟩ |
    ⟨r, hi0, hrs, hrun, hlft, hkt, hset, hfresh⟩
  · subst hi0
    rw [if_neg (show ¬((0 : Int) ≤ -1) by decide)]
    refine ⟨hlen, fun i hi => hset i hi, ?_⟩
    intro i hi hV
    have hm : i < m.length := by
      rw [hlen]
      exact hi
    cases hbv : m.get ⟨i, hm⟩ with
    | false =>
      rw [List.get?_eq_get hm, hbv]
    | true =>
      have h1 := ((hset i hi).mp (by rw [List.get?_eq_get hm, hbv])).1
      rw [hV] at h1
      exact absurd h1 (by decide)
  · subst hi0
    rw [if_pos (show (0 : Int) ≤ (r : Int) by omega)]
    have hto : ((r : Int)).toNat = r := by omega
    rw [hto]
    have hchar := flush_char specs r specs.length kt m hlen (le_refl _) hrs
      hrun hlft (Or.inl rfl) hkt hset hfresh
    have hplen : (populate m r specs.length kt).length = specs.length := by
      rw [populate_length]
      exact hlen
    refine ⟨hplen, fun i hi => hchar i hi, ?_⟩
    intro i hi hV
    have hm : i < (populate m r specs.length kt).length := by
      rw [hplen]
      exact hi
    cases hbv : (populate m r specs.length kt).get ⟨i, hm⟩ with
    | false =>
      rw [List.get?_eq_get hm, hbv]
    | true =>
      have h1 := ((hchar i hi).mp (by rw [List.get?_eq_get hm, hbv])).1
      rw [hV] at h1
      exact absurd h1 (by decide)

/-- The README comment's example matrix for keepTypeColumn:
row 0 typed with values, row 1 values only, row 2 neither, row 3 values
only; expected result true, true, false, false. -/
def wSpecs : List ValueSpec :=
  [ValueSpec.mk none [⟨1, "foobar", .null⟩] (some (.ident ⟨2, "int", .null⟩))
     (some [.basicLit ⟨3, .INT, "42"⟩]) none,
   ValueSpec.mk none [⟨4, "x", .null⟩] none (some [.basicLit ⟨5, .INT, "7"⟩]) none,
   ValueSpec.mk none [⟨6, "foo", .null⟩] none none none,
   ValueSpec.mk none [⟨7, "bar", .null⟩] none (some [.basicLit ⟨8, .INT, "991"⟩]) none]

/-- Witness for C9 on the README example: spec 0 (typed, with values)
keeps its type column, spec 2 (no values) does not. -/
theorem C9_keep_type_column_witness :
    0 < wSpecs.length ∧ 2 < wSpecs.length ∧ hasVals wSpecs 2 = false ∧
    (keepTypeColumn wSpecs).get? 0 = some true ∧
    (keepTypeColumn wSpecs).get? 2 = some false := by
  refine ⟨by decide, by decide, rfl, ?_, ?_⟩
  · exact ((C9_keep_type_column wSpecs).2.1 0 (by decide)).mpr
      ⟨rfl, 0, by decide, (fun k h1 h2 => by
        have hk : k = 0 := by simpa using h2
        subst hk
        rfl), rfl⟩
  · exact (C9_keep_type_column wSpecs).2.2 2 (by decide) rfl

end IGo
